import Mathlib

/-!
Verification of the bridge reconciler (`configure_bridges`) of the
`charm-layer-ovn` repository (`lib/charms/ovn_charm.py`).

The reconciler reads two configuration strings
(`bridge-interface-mappings`, whitespace-separated `bridge:ref` tokens, and
`ovn-bridge-mappings`, whitespace-separated `network:bridge` tokens),
resolves interface references via an external resolver, diffs the declared
mapping against observed Open vSwitch state and issues create/delete
operations, then publishes a sorted `network:bridge[,...]` string to the
root configuration table.

The external OVS accessor layer (`charms.ovn`: `SimpleOVSDB`, `add_br`,
`del_br`, `add_port`, `del_port`, `list_ports`) is not part of the source
excerpt; its behaviour is modelled from the specification's
SwitchStateAccessor interface.  Everything else is translated directly from
`configure_bridges`.
-/

namespace OvnCharm

/-- One external-ids key/value list as carried on OVSDB rows. -/
abbrev Ids := List (String × String)

/-- Lookup of a key in an external-ids list (first match wins). -/
def idsGet (ids : Ids) (k : String) : Option String :=
  (ids.find? (fun e => e.1 == k)).map (fun e => e.2)

/-- The external-ids key used by the charm to mark entities it manages
(`charm-ovn-chassis` in the source). -/
def tagKey : String := "charm-ovn-chassis"

/-- An observed bridge row: name plus external-ids tags. -/
structure Bridge where
  name : String
  external_ids : Ids
deriving DecidableEq, Repr

/-- An observed port row: name, the bridge the port is attached to, and
external-ids tags. -/
structure Port where
  name : String
  bridge : String
  external_ids : Ids
deriving DecidableEq, Repr

/-- Observed OVS state: bridge table, port table and the external-ids of
the root `Open_vSwitch` row. -/
structure OVSState where
  bridges : List Bridge
  ports : List Port
  root_external_ids : Ids
deriving DecidableEq, Repr

/-- The `charm-ovn-chassis` tag of a bridge row. -/
def bridgeTag (b : Bridge) : Option String := idsGet b.external_ids tagKey

/-- The `charm-ovn-chassis` tag of a port row. -/
def portTag (p : Port) : Option String := idsGet p.external_ids tagKey

/-- Mutating (and port-up) calls issued by the reconciler to the external
accessors, recorded as a trace. -/
inductive Op where
  | delBr (name : String)
  | delPort (br port : String)
  | addBr (name : String)
  | addPort (br port : String)
  | linkUp (port : String)
  | setExt (key value : String)
  | removeExt (key : String)
deriving DecidableEq, Repr

/-- An op is a mutation of the external OVS state (the `ip link set ... up`
call touches the host interface, not the switch database, but it is a
mutating call as well; we keep it separate because the claims name
create/delete/set/remove). -/
def Op.isMutating : Op → Bool
  | .linkUp _ => false
  | _ => true

/-- An op is one of the unconditional publish calls of the final step
(`opvs.set` / `opvs.remove` on the root row). -/
def Op.isPublish : Op → Bool
  | .setExt _ _ => true
  | .removeExt _ => true
  | _ => false

/-! ## Tokenising and `pair.split(':', 1)` -/

/-- Accumulator-based whitespace word splitter over characters; mirrors
Python `str.split()` with no arguments (split on whitespace runs, dropping
empty strings). -/
def wordsAux : List Char → List Char → List (List Char)
  | [], acc => if acc = [] then [] else [acc.reverse]
  | c :: cs, acc =>
    if c.isWhitespace then
      if acc = [] then wordsAux cs [] else acc.reverse :: wordsAux cs []
    else wordsAux cs (c :: acc)

/-- Python `s.split()`: whitespace-separated tokens of a string. -/
def tokens (s : String) : List String :=
  (wordsAux s.data []).map (fun l => String.mk l)

/-- Python `pair.split(':', 1)` followed by unpacking into two names:
split at the first colon; a token with no colon is a fatal parse error
(`ValueError` in the source), modelled as `none`. -/
def splitFirstColon (s : String) : Option (String × String) :=
  if ':' ∈ s.data then
    some (String.mk (s.data.takeWhile (fun c => c != ':')),
          String.mk ((s.data.dropWhile (fun c => c != ':')).drop 1))
  else none

/-! ## Grouped string maps (Python dict of lists, insertion ordered) -/

/-- Append a value to the list held at a key, creating the key at the end
on first occurrence; mirrors `collections.defaultdict(list)` with Python's
insertion-ordered dicts. -/
def insertGrouped : List (String × List String) → String → String →
    List (String × List String)
  | [], k, v => [(k, [v])]
  | (k', vs) :: rest, k, v =>
    if k' = k then (k', vs ++ [v]) :: rest
    else (k', vs) :: insertGrouped rest k v

/-- Lookup in a grouped map. -/
def lookupGrouped (m : List (String × List String)) (k : String) :
    Option (List String) :=
  (m.find? (fun e => e.1 == k)).map (fun e => e.2)

/-- Python `k in d` on a grouped map. -/
def containsKey (m : List (String × List String)) (k : String) : Bool :=
  (lookupGrouped m k).isSome

/-! ## Parsing the two configuration strings -/

/-- First loop of `configure_bridges`: parse `bridge-interface-mappings`
into the `ifbridges` grouped map; any token without a colon is fatal. -/
def parseIfbm (ifbm : String) : Option (List (String × List String)) :=
  (tokens ifbm).foldlM
    (fun m tok =>
      (splitFirstColon tok).map (fun pr => insertGrouped m pr.1 pr.2)) []

/-- Resolution step of `configure_bridges`: map each bridge's reference
list through the external resolver (`npc.resolve_ports`), then drop
bridges whose resolved list is empty. -/
def resolveBridges (resolve : List String → List String)
    (m : List (String × List String)) : List (String × List String) :=
  (m.map (fun e => (e.1, resolve e.2))).filter (fun e => !e.2.isEmpty)

/-- Lexicographic comparison of character lists by code point; the order
Python `sorted` applies to the raw tokens. -/
def lexLeL : List Char → List Char → Bool
  | [], _ => true
  | _ :: _, [] => false
  | a :: as, b :: bs =>
    if a < b then true else if b < a then false else lexLeL as bs

/-- Lexicographic string comparison (Python string comparison). -/
def lexLe (a b : String) : Bool := lexLeL a.data b.data

/-- Insert a token into an already sorted token list. -/
def orderedInsertTok (x : String) : List String → List String
  | [] => [x]
  | y :: ys => if lexLe x y then x :: y :: ys else y :: orderedInsertTok x ys

/-- Sort a token list lexicographically; Python `sorted` (strings compare
by code point, and duplicate tokens are identical, so any stable or
unstable insertion sort produces Python's output). -/
def sortTokens : List String → List String
  | [] => []
  | x :: xs => orderedInsertTok x (sortTokens xs)

/-- The `ovn-bridge-mappings` tokens in the order the source iterates
them: Python `sorted(config_obm.split())` (lexicographic on the raw
token). -/
def sortedTokens (obm : String) : List String :=
  sortTokens (tokens obm)

/-- One iteration of the `ovn-bridge-mappings` loop: split the token at
the first colon (fatal if absent); when the bridge is present in the
resolved interface map, record the network under the bridge and extend the
growing comma-joined mapping string. -/
def obmStep (ifb : List (String × List String))
    (a : String × List (String × List String)) (tok : String) :
    Option (String × List (String × List String)) :=
  match splitFirstColon tok with
  | none => none
  | some (network, bridge) =>
    if containsKey ifb bridge then
      some ((if a.1 = "" then a.1 ++ network ++ ":" ++ bridge
             else a.1 ++ "," ++ network ++ ":" ++ bridge),
            insertGrouped a.2 bridge network)
    else some a

/-- Second loop of `configure_bridges`: build `ovn_br_map_str` and the
`ovnbridges` grouped map from the sorted `ovn-bridge-mappings` tokens. -/
def buildOvnMap (ifb : List (String × List String)) (obm : String) :
    Option (String × List (String × List String)) :=
  (sortedTokens obm).foldlM (obmStep ifb) ("", [])

/-! ## Modelled external accessors

Modelled from the spec: the `charms.ovn` accessor layer (SwitchStateAccessor
of spec §6) is not part of the source excerpt.  Rows are listed filtered by
a tag predicate, created with initial tags, deleted by key, and deleting a
bridge cascades its ports (spec §4.1 step 4). -/

/-- Modelled from the spec: `ovn.del_br` — delete a bridge row by name;
deleting a bridge cascades its ports. -/
def del_br (s : OVSState) (n : String) : OVSState :=
  { s with bridges := s.bridges.filter (fun b => b.name != n),
           ports := s.ports.filter (fun p => p.bridge != n) }

/-- Modelled from the spec: `ovn.del_port` — delete a port row by key
(its name). -/
def del_port (s : OVSState) (pn : String) : OVSState :=
  { s with ports := s.ports.filter (fun p => p.name != pn) }

/-- Modelled from the spec: `ovn.add_br(br, ('charm-ovn-chassis',
'managed'))` — create a bridge row with the managed tag as its initial
external-ids. -/
def add_br (s : OVSState) (n : String) : OVSState :=
  { s with bridges := s.bridges ++ [⟨n, [(tagKey, "managed")]⟩] }

/-- Modelled from the spec: `ovn.add_port(br, port, ifdata={'external-ids':
{'charm-ovn-chassis': br}})` — create a port row attached to `br`, tagged
with the bridge's name. -/
def add_port (s : OVSState) (br pn : String) : OVSState :=
  { s with ports := s.ports ++ [⟨pn, br, [(tagKey, br)]⟩] }

/-- Modelled from the spec: `ovn.list_ports(br)` — names of the ports
attached to a bridge. -/
def list_ports (s : OVSState) (br : String) : List String :=
  (s.ports.filter (fun p => p.bridge == br)).map Port.name

/-- Modelled from the spec: `bridges.find('external_ids:charm-ovn-chassis=
managed')` — snapshot of the bridge rows carrying the managed tag. -/
def managedBridges (s : OVSState) : List Bridge :=
  s.bridges.filter (fun b => bridgeTag b == some "managed")

/-- Modelled from the spec: `ports.find('external_ids:charm-ovn-chassis=
<name>')` — snapshot of the port rows tagged with a given bridge name. -/
def taggedPorts (s : OVSState) (n : String) : List Port :=
  s.ports.filter (fun p => portTag p == some n)

/-- Modelled from the spec: `next(bridges.find('name=<n>'))` succeeding —
whether a bridge row with the given name exists. -/
def bridgeExists (s : OVSState) (n : String) : Bool :=
  s.bridges.any (fun b => b.name == n)

/-- Modelled from the spec: `opvs.set('.', 'external_ids:<k>', v)` on the
root row — replace or insert the key. -/
def rootSet (s : OVSState) (k v : String) : OVSState :=
  { s with root_external_ids :=
      (s.root_external_ids.filter (fun e => e.1 != k)) ++ [(k, v)] }

/-- Modelled from the spec: `opvs.remove('.', 'external_ids', k)` on the
root row — delete the key entirely. -/
def rootRemove (s : OVSState) (k : String) : OVSState :=
  { s with root_external_ids :=
      s.root_external_ids.filter (fun e => e.1 != k) }

/-! ## The three phases of the reconciler -/

/-- Inner iteration of the stale-removal loop: a port tagged with the
managed bridge's name whose name is no longer among the bridge's resolved
interfaces is deleted. -/
def removePortStep (brName : String) (ifaces : List String)
    (a : OVSState × List Op) (p : Port) : OVSState × List Op :=
  if p.name ∈ ifaces then a
  else (del_port a.1 p.name, a.2 ++ [Op.delPort brName p.name])

/-- Outer iteration of the stale-removal loop: a managed bridge absent
from the resolved interface map is deleted; otherwise its tagged ports are
pruned. -/
def removeBrStep (ifb : List (String × List String))
    (a : OVSState × List Op) (b : Bridge) : OVSState × List Op :=
  match lookupGrouped ifb b.name with
  | none => (del_br a.1 b.name, a.2 ++ [Op.delBr b.name])
  | some ifaces => (taggedPorts a.1 b.name).foldl (removePortStep b.name ifaces) a

/-- Stale-removal phase: iterate the snapshot of managed bridges. -/
def removePhase (ifb : List (String × List String)) (s : OVSState) :
    OVSState × List Op :=
  (managedBridges s).foldl (removeBrStep ifb) (s, [])

/-- Inner iteration of the add loop: attach a declared interface to the
bridge unless a port of that name is already attached, and bring the
freshly attached interface up. -/
def addPortStep (br : String) (a : OVSState × List Op) (pn : String) :
    OVSState × List Op :=
  if pn ∈ list_ports a.1 br then a
  else (add_port a.1 br pn, a.2 ++ [Op.addPort br pn, Op.linkUp pn])

/-- Outer iteration of the add loop: skip bridges without any mapped
network; otherwise create the bridge when absent and attach its declared
interfaces. -/
def addBrStep (ovnb : List (String × List String))
    (a : OVSState × List Op) (e : String × List String) :
    OVSState × List Op :=
  if containsKey ovnb e.1 then
    let a1 := if bridgeExists a.1 e.1 then a
              else (add_br a.1 e.1, a.2 ++ [Op.addBr e.1])
    e.2.foldl (addPortStep e.1) a1
  else a

/-- Add phase: iterate the resolved interface map. -/
def addPhase (ifb ovnb : List (String × List String)) (s : OVSState) :
    OVSState × List Op :=
  ifb.foldl (addBrStep ovnb) (s, [])

/-- Publish phase: when the computed mapping string is non-empty set both
root keys, otherwise remove both keys entirely. -/
def publishPhase (mstr : String) (s : OVSState) : OVSState × List Op :=
  if mstr = "" then
    (rootRemove (rootRemove s "ovn-bridge-mappings") "ovn-cms-options",
     [Op.removeExt "ovn-bridge-mappings", Op.removeExt "ovn-cms-options"])
  else
    (rootSet (rootSet s "ovn-bridge-mappings" mstr)
       "ovn-cms-options" "enable-chassis-as-gw",
     [Op.setExt "ovn-bridge-mappings" mstr,
      Op.setExt "ovn-cms-options" "enable-chassis-as-gw"])

/-- The reconciler `configure_bridges`, as a function of the external
interface resolver, the two configuration strings and the observed OVS
state; returns the final observed state and the trace of issued calls, or
`none` on a fatal configuration parse error. -/
def configure_bridges (resolve : List String → List String)
    (ifbm obm : String) (s : OVSState) : Option (OVSState × List Op) := do
  let ifb0 ← parseIfbm ifbm
  let ifb := resolveBridges resolve ifb0
  let (mstr, ovnb) ← buildOvnMap ifb obm
  let r1 := removePhase ifb s
  let r2 := addPhase ifb ovnb r1.1
  let r3 := publishPhase mstr r2.1
  some (r3.1, r1.2 ++ r2.2 ++ r3.2)

/-! ## Specification-side helper definitions used in theorem statements -/

/-- Render a `(network, bridge)` pair the way the source formats it
(`'{}:{}'.format(network, bridge)`). -/
def renderPair (pr : String × String) : String := pr.1 ++ ":" ++ pr.2

/-- The `(network, bridge)` pairs the mapping-string loop keeps: tokens
that parse and whose bridge is present in the resolved interface map. -/
def keptPairs (ifb : List (String × List String)) (toks : List String) :
    List (String × String) :=
  toks.filterMap (fun tok =>
    (splitFirstColon tok).bind (fun pr =>
      if containsKey ifb pr.2 then some pr else none))

/-- Dense comma-join of a list of strings. -/
def commaJoin : List String → String
  | [] => ""
  | [t] => t
  | t :: u :: ts => t ++ "," ++ commaJoin (u :: ts)

/-- The accumulator form of the source's string building: extend a partial
mapping string by further pairs, comma-separated once non-empty. -/
def commaExtend : String → List String → String
  | s, [] => s
  | s, t :: ts => commaExtend (if s = "" then s ++ t else s ++ "," ++ t) ts

/-- A step function whose output trace is its input trace extended by ops
computed from the state component alone. -/
def TraceStep {α : Type} (f : (OVSState × List Op) → α → (OVSState × List Op)) :
    Prop :=
  ∀ s t x, f (s, t) x = ((f (s, []) x).1, t ++ (f (s, []) x).2)

/-- Well-formedness of an observed OVS state: a port's managed tag, when
present, names the bridge the port is attached to, and the attached bridge
exists.  Real OVS guarantees both (the charm only tags ports with their own
bridge, and a port cannot be attached to a non-existent bridge). -/
def WFState (s : OVSState) : Prop :=
  (∀ p ∈ s.ports, ∀ n, portTag p = some n → p.bridge = n) ∧
  (∀ p ∈ s.ports, bridgeExists s p.bridge = true)

/-- A managed bridge name is clean in a state: every port tagged with it is
among the declared interfaces the resolved map holds for it. -/
def GoodBr (ifb : List (String × List String)) (s : OVSState) (n : String) :
    Prop :=
  ∀ p ∈ s.ports, portTag p = some n →
    ∀ ifs, lookupGrouped ifb n = some ifs → p.name ∈ ifs

/-- After a converged pass: every managed bridge is still declared. -/
def Conv1 (ifb : List (String × List String)) (s : OVSState) : Prop :=
  ∀ b ∈ s.bridges, bridgeTag b = some "managed" →
    containsKey ifb b.name = true

/-- After a converged pass: every port tagged with the name of a present
managed bridge is among that bridge's declared interfaces. -/
def Conv2 (ifb : List (String × List String)) (s : OVSState) : Prop :=
  ∀ p ∈ s.ports, ∀ n, portTag p = some n →
    (∃ b ∈ s.bridges, b.name = n ∧ bridgeTag b = some "managed") →
    ∀ ifaces, lookupGrouped ifb n = some ifaces → p.name ∈ ifaces

/-- After a converged pass: every declared bridge with a mapped network
exists and carries all its declared interfaces. -/
def Conv3 (ifb ovnb : List (String × List String)) (s : OVSState) : Prop :=
  ∀ e ∈ ifb, containsKey ovnb e.1 = true →
    bridgeExists s e.1 = true ∧ ∀ pn ∈ e.2, pn ∈ list_ports s e.1

/-! # Lemmas: strings and tokens -/

theorem takeWhile_colon_reassemble (l : List Char) (h : ':' ∈ l) :
    l.takeWhile (fun c => c != ':') ++
      ':' :: ((l.dropWhile (fun c => c != ':')).drop 1) = l := by
  induction l with
  | nil => cases h
  | cons c cs ih =>
    by_cases hc : c = ':'
    · subst hc; simp [List.takeWhile_cons, List.dropWhile_cons]
    · have h' : ':' ∈ cs := List.mem_of_ne_of_mem (fun e => hc e.symm) h
      have ih' := ih h'
      rw [List.drop_one] at ih'
      simp [List.takeWhile_cons, List.dropWhile_cons, hc, ih', List.drop_one]

theorem takeWhile_append_colon (l1 l2 : List Char) (h : ':' ∉ l1) :
    (l1 ++ ':' :: l2).takeWhile (fun c => c != ':') = l1 := by
  induction l1 with
  | nil => simp [List.takeWhile_cons]
  | cons c cs ih =>
    have hc : c ≠ ':' := fun e => h (e ▸ List.mem_cons_self c cs)
    have h' : ':' ∉ cs := fun m => h (List.mem_cons_of_mem _ m)
    simp [List.takeWhile_cons, hc, ih h']

theorem dropWhile_append_colon (l1 l2 : List Char) (h : ':' ∉ l1) :
    (l1 ++ ':' :: l2).dropWhile (fun c => c != ':') = ':' :: l2 := by
  induction l1 with
  | nil => simp [List.dropWhile_cons]
  | cons c cs ih =>
    have hc : c ≠ ':' := fun e => h (e ▸ List.mem_cons_self c cs)
    have h' : ':' ∉ cs := fun m => h (List.mem_cons_of_mem _ m)
    simp [List.dropWhile_cons, hc, ih h']

theorem splitFirstColon_reassemble (s n r : String)
    (h : splitFirstColon s = some (n, r)) : n ++ ":" ++ r = s := by
  by_cases hm : ':' ∈ s.data
  · simp only [splitFirstColon, if_pos hm, Option.some.injEq, Prod.mk.injEq] at h
    apply String.ext
    have : (n ++ ":" ++ r).data = n.data ++ ':' :: r.data := by
      show (n.data ++ [':']) ++ r.data = _
      simp
    rw [this, ← h.1, ← h.2]
    exact takeWhile_colon_reassemble s.data hm
  · simp [splitFirstColon, hm] at h

theorem splitFirstColon_append (a b : String) (h : ':' ∉ a.data) :
    splitFirstColon (a ++ ":" ++ b) = some (a, b) := by
  have hd : (a ++ ":" ++ b).data = a.data ++ ':' :: b.data := by
    show (a.data ++ [':']) ++ b.data = _
    simp
  have hmem : ':' ∈ a.data ++ ':' :: b.data :=
    List.mem_append_right _ (List.mem_cons_self _ _)
  simp only [splitFirstColon, hd, if_pos hmem,
    takeWhile_append_colon a.data b.data h,
    dropWhile_append_colon a.data b.data h, List.drop_succ_cons, List.drop_zero]

theorem splitFirstColon_none_iff (s : String) :
    splitFirstColon s = none ↔ ':' ∉ s.data := by
  by_cases hm : ':' ∈ s.data <;> simp [splitFirstColon, hm]

theorem wordsAux_no_ws (l : List Char)
    (h : ∀ c ∈ l, c.isWhitespace = false) : ∀ acc : List Char,
    wordsAux l acc =
      if l.reverse ++ acc = [] then [] else [acc.reverse ++ l] := by
  induction l with
  | nil => intro acc; simp [wordsAux]
  | cons c cs ih =>
    intro acc
    have hc : c.isWhitespace = false := h c (List.mem_cons_self c cs)
    have h' : ∀ x ∈ cs, x.isWhitespace = false := fun x hx =>
      h x (List.mem_cons_of_mem _ hx)
    simp only [wordsAux, hc, Bool.false_eq_true, if_false, ih h' (c :: acc)]
    simp [List.append_eq_nil]

theorem tokens_no_ws (s : String) (hne : s.data ≠ [])
    (h : ∀ c ∈ s.data, c.isWhitespace = false) : tokens s = [s] := by
  unfold tokens
  rw [wordsAux_no_ws s.data h []]
  simp [hne]

theorem lexLeL_total (a : List Char) : ∀ b : List Char,
    lexLeL a b = true ∨ lexLeL b a = true := by
  induction a with
  | nil => intro b; exact Or.inl rfl
  | cons x xs ih =>
    intro b
    cases b with
    | nil => exact Or.inr rfl
    | cons y ys =>
      rcases lt_trichotomy x y with h | h | h
      · left; simp [lexLeL, h]
      · subst h
        rcases ih ys with h' | h'
        · left; simp [lexLeL, lt_irrefl, h']
        · right; simp [lexLeL, lt_irrefl, h']
      · right; simp [lexLeL, h]

theorem lexLeL_trans (a : List Char) : ∀ b c : List Char,
    lexLeL a b = true → lexLeL b c = true → lexLeL a c = true := by
  induction a with
  | nil => intro b c _ _; rfl
  | cons x xs ih =>
    intro b c h1 h2
    cases b with
    | nil => simp [lexLeL] at h1
    | cons y ys =>
      cases c with
      | nil => simp [lexLeL] at h2
      | cons z zs =>
        simp only [lexLeL] at h1 h2 ⊢
        by_cases hxy : x < y
        · by_cases hyz : y < z
          · rw [if_pos (lt_trans hxy hyz)]
          · by_cases hzy : z < y
            · rw [if_neg hyz, if_pos hzy] at h2
              cases h2
            · have he : y = z := le_antisymm (not_lt.mp hzy) (not_lt.mp hyz)
              subst he
              rw [if_pos hxy]
        · by_cases hyx : y < x
          · rw [if_neg hxy, if_pos hyx] at h1
            cases h1
          · have he : x = y := le_antisymm (not_lt.mp hyx) (not_lt.mp hxy)
            subst he
            rw [if_neg hxy, if_neg hyx] at h1
            by_cases hxz : x < z
            · rw [if_pos hxz]
            · by_cases hzx : z < x
              · rw [if_neg hxz, if_pos hzx] at h2
                cases h2
              · rw [if_neg hxz, if_neg hzx] at h2 ⊢
                exact ih ys zs h1 h2

theorem lexLe_total (a b : String) : lexLe a b = true ∨ lexLe b a = true :=
  lexLeL_total a.data b.data

theorem lexLe_trans (a b c : String) (h1 : lexLe a b = true)
    (h2 : lexLe b c = true) : lexLe a c = true :=
  lexLeL_trans a.data b.data c.data h1 h2

theorem mem_orderedInsertTok (x z : String) (l : List String) :
    z ∈ orderedInsertTok x l ↔ z = x ∨ z ∈ l := by
  induction l with
  | nil => simp [orderedInsertTok]
  | cons y ys ih =>
    by_cases h : lexLe x y = true
    · rw [orderedInsertTok, if_pos h]
      simp
    · rw [orderedInsertTok, if_neg h]
      simp only [List.mem_cons, ih]
      tauto

theorem mem_sortTokens (z : String) (l : List String) :
    z ∈ sortTokens l ↔ z ∈ l := by
  induction l with
  | nil => simp [sortTokens]
  | cons x xs ih =>
    rw [sortTokens, mem_orderedInsertTok]
    simp only [List.mem_cons, ih]

theorem orderedInsertTok_pairwise (x : String) (l : List String)
    (h : l.Pairwise (fun a b => lexLe a b = true)) :
    (orderedInsertTok x l).Pairwise (fun a b => lexLe a b = true) := by
  induction l with
  | nil => simp [orderedInsertTok]
  | cons y ys ih =>
    obtain ⟨hy, hys⟩ := List.pairwise_cons.mp h
    by_cases hxy : lexLe x y = true
    · rw [orderedInsertTok, if_pos hxy]
      refine List.pairwise_cons.mpr ⟨?_, h⟩
      intro z hz
      rcases List.mem_cons.mp hz with rfl | hz'
      · exact hxy
      · exact lexLe_trans x y z hxy (hy z hz')
    · rw [orderedInsertTok, if_neg hxy]
      refine List.pairwise_cons.mpr ⟨?_, ih hys⟩
      intro z hz
      rcases (mem_orderedInsertTok x z ys).mp hz with rfl | hz'
      · rcases lexLe_total z y with h' | h'
        · exact absurd h' hxy
        · exact h'
      · exact hy z hz'

theorem sortTokens_pairwise (l : List String) :
    (sortTokens l).Pairwise (fun a b => lexLe a b = true) := by
  induction l with
  | nil => exact List.Pairwise.nil
  | cons x xs ih =>
    rw [sortTokens]
    exact orderedInsertTok_pairwise x (sortTokens xs) ih

/-! # Lemmas: grouped maps -/

theorem containsKey_iff_exists (m : List (String × List String)) (k : String) :
    containsKey m k = true ↔ ∃ vs, lookupGrouped m k = some vs := by
  simp [containsKey, Option.isSome_iff_exists]

theorem lookupGrouped_nil (k : String) :
    lookupGrouped [] k = none := rfl

theorem lookupGrouped_cons (k1 : String) (vs : List String)
    (m : List (String × List String)) (k : String) :
    lookupGrouped ((k1, vs) :: m) k =
      if k1 = k then some vs else lookupGrouped m k := by
  by_cases h : k1 = k <;> simp [lookupGrouped, List.find?_cons, h]

theorem lookupGrouped_mem (m : List (String × List String)) (k : String)
    (vs : List String) (h : lookupGrouped m k = some vs) : (k, vs) ∈ m := by
  induction m with
  | nil => cases h
  | cons x m ih =>
    obtain ⟨k1, vs1⟩ := x
    rw [lookupGrouped_cons] at h
    by_cases h1 : k1 = k
    · rw [if_pos h1] at h
      injection h with h2
      subst h1; subst h2
      exact List.mem_cons_self _ _
    · rw [if_neg h1] at h
      exact List.mem_cons_of_mem _ (ih h)

theorem containsKey_of_mem (m : List (String × List String))
    (e : String × List String) (he : e ∈ m) : containsKey m e.1 = true := by
  induction m with
  | nil => cases he
  | cons x m ih =>
    obtain ⟨k1, vs1⟩ := x
    rcases List.mem_cons.mp he with rfl | hm
    · simp [containsKey, lookupGrouped_cons]
    · by_cases h1 : k1 = e.1
      · simp [containsKey, lookupGrouped_cons, h1]
      · simpa [containsKey, lookupGrouped_cons, h1] using ih hm

theorem containsKey_cons (k1 : String) (vs : List String)
    (m : List (String × List String)) (k : String) :
    containsKey ((k1, vs) :: m) k = ((k1 == k) || containsKey m k) := by
  by_cases h : k1 = k <;> simp [containsKey, lookupGrouped_cons, h]

theorem lookupGrouped_of_mem_nodup (m : List (String × List String))
    (e : String × List String) (he : e ∈ m)
    (hnd : (m.map Prod.fst).Nodup) : lookupGrouped m e.1 = some e.2 := by
  induction m with
  | nil => cases he
  | cons x m ih =>
    obtain ⟨k1, vs1⟩ := x
    rw [List.map_cons] at hnd
    obtain ⟨hk1, hnd'⟩ := List.nodup_cons.mp hnd
    rcases List.mem_cons.mp he with rfl | hm
    · simp [lookupGrouped_cons]
    · have hx : k1 ≠ e.1 := by
        intro hxe
        exact hk1 (by rw [hxe]; exact List.mem_map.mpr ⟨e, hm, rfl⟩)
      rw [lookupGrouped_cons, if_neg hx]
      exact ih hm hnd'

theorem lookupGrouped_insertGrouped (m : List (String × List String))
    (k v k' : String) :
    lookupGrouped (insertGrouped m k v) k' =
      if k = k' then some ((lookupGrouped m k).getD [] ++ [v])
      else lookupGrouped m k' := by
  induction m with
  | nil =>
    by_cases h : k = k' <;>
      simp [insertGrouped, lookupGrouped_cons, lookupGrouped_nil, h]
  | cons x m ih =>
    obtain ⟨k1, vs⟩ := x
    by_cases h1 : k1 = k
    · subst h1
      by_cases h2 : k1 = k' <;>
        simp [insertGrouped, lookupGrouped_cons, h2]
    · rw [show insertGrouped ((k1, vs) :: m) k v =
          (k1, vs) :: insertGrouped m k v by simp [insertGrouped, h1]]
      by_cases h2 : k1 = k'
      · subst h2
        have hk : ¬ k = k1 := fun e => h1 e.symm
        simp [lookupGrouped_cons, hk]
      · rw [lookupGrouped_cons, if_neg h2, ih]
        by_cases h3 : k = k'
        · rw [if_pos h3, if_pos h3, lookupGrouped_cons, if_neg h1]
        · rw [if_neg h3, if_neg h3, lookupGrouped_cons, if_neg h2]

theorem containsKey_insertGrouped (m : List (String × List String))
    (k v k' : String) :
    containsKey (insertGrouped m k v) k' = true ↔
      containsKey m k' = true ∨ k = k' := by
  by_cases h : k = k' <;>
    simp [containsKey, lookupGrouped_insertGrouped, h]

theorem containsKey_iff_mem_keys (m : List (String × List String))
    (k : String) : containsKey m k = true ↔ k ∈ m.map Prod.fst := by
  constructor
  · intro h
    obtain ⟨vs, hvs⟩ := (containsKey_iff_exists m k).mp h
    exact List.mem_map.mpr ⟨(k, vs), lookupGrouped_mem m k vs hvs, rfl⟩
  · intro h
    obtain ⟨e, he, hk⟩ := List.mem_map.mp h
    exact hk ▸ containsKey_of_mem m e he

theorem keysNodup_insertGrouped (m : List (String × List String))
    (k v : String) (h : (m.map Prod.fst).Nodup) :
    ((insertGrouped m k v).map Prod.fst).Nodup := by
  induction m with
  | nil => simp [insertGrouped]
  | cons x m ih =>
    obtain ⟨k1, vs⟩ := x
    rw [List.map_cons] at h
    obtain ⟨hk1, hnd⟩ := List.nodup_cons.mp h
    by_cases h1 : k1 = k
    · subst h1
      simp only [insertGrouped, if_pos rfl, List.map_cons]
      exact List.nodup_cons.mpr ⟨hk1, hnd⟩
    · rw [show insertGrouped ((k1, vs) :: m) k v =
          (k1, vs) :: insertGrouped m k v by simp [insertGrouped, h1]]
      rw [List.map_cons]
      refine List.nodup_cons.mpr ⟨?_, ih hnd⟩
      intro hmem
      have : containsKey (insertGrouped m k v) k1 = true :=
        (containsKey_iff_mem_keys _ _).mpr hmem
      rcases (containsKey_insertGrouped m k v k1).mp this with hc | he
      · exact hk1 ((containsKey_iff_mem_keys m k1).mp hc)
      · exact h1 he.symm

/-! # Lemmas: parsing the configuration strings -/

theorem parse_foldlM_none {toks : List String}
    (m : List (String × List String)) (tok : String) (htok : tok ∈ toks)
    (hbad : splitFirstColon tok = none) :
    toks.foldlM (fun m tok =>
      (splitFirstColon tok).map (fun pr => insertGrouped m pr.1 pr.2)) m
      = none := by
  induction toks generalizing m with
  | nil => cases htok
  | cons t ts ih =>
    rcases List.mem_cons.mp htok with rfl | hm
    · simp [List.foldlM_cons, hbad]
    · cases hs : splitFirstColon t with
      | none => simp [List.foldlM_cons, hs]
      | some pr => simp [List.foldlM_cons, hs, ih _ hm]

theorem parseIfbm_none (ifbm : String) (tok : String)
    (htok : tok ∈ tokens ifbm) (hbad : splitFirstColon tok = none) :
    parseIfbm ifbm = none :=
  parse_foldlM_none [] tok htok hbad

theorem parseIfbm_keysNodup_aux (toks : List String) :
    ∀ m0 m, (m0.map Prod.fst).Nodup →
    toks.foldlM (fun m tok =>
      (splitFirstColon tok).map (fun pr => insertGrouped m pr.1 pr.2)) m0
      = some m → (m.map Prod.fst).Nodup := by
  induction toks with
  | nil => intro m0 m h he; cases he; exact h
  | cons t ts ih =>
    intro m0 m h he
    cases hs : splitFirstColon t with
    | none => simp [List.foldlM_cons, hs] at he
    | some pr =>
      rw [List.foldlM_cons, hs] at he
      exact ih _ m (keysNodup_insertGrouped m0 pr.1 pr.2 h) he

theorem parseIfbm_keysNodup (ifbm : String)
    (m : List (String × List String)) (h : parseIfbm ifbm = some m) :
    (m.map Prod.fst).Nodup :=
  parseIfbm_keysNodup_aux (tokens ifbm) [] m (by simp) h

theorem resolveBridges_mem (resolve : List String → List String)
    (m : List (String × List String)) (e : String × List String) :
    e ∈ resolveBridges resolve m ↔
      (∃ e0 ∈ m, e.1 = e0.1 ∧ e.2 = resolve e0.2) ∧ e.2 ≠ [] := by
  simp only [resolveBridges, List.mem_filter, List.mem_map]
  constructor
  · rintro ⟨⟨e0, he0, rfl⟩, hne⟩
    exact ⟨⟨e0, he0, rfl, rfl⟩, by simpa using hne⟩
  · rintro ⟨⟨e0, he0, h1, h2⟩, hne⟩
    refine ⟨⟨e0, he0, ?_⟩, by simpa using hne⟩
    cases e; simp_all

theorem resolveBridges_keys_sublist (resolve : List String → List String)
    (m : List (String × List String)) :
    List.Sublist ((resolveBridges resolve m).map Prod.fst)
      (m.map Prod.fst) := by
  have h1 : List.Sublist (resolveBridges resolve m)
      (m.map (fun e => (e.1, resolve e.2))) := List.filter_sublist _
  have h2 := h1.map Prod.fst
  rw [List.map_map] at h2
  simpa using h2

theorem resolveBridges_keysNodup (resolve : List String → List String)
    (m : List (String × List String)) (h : (m.map Prod.fst).Nodup) :
    ((resolveBridges resolve m).map Prod.fst).Nodup :=
  h.sublist (resolveBridges_keys_sublist resolve m)

theorem resolveBridges_containsKey (resolve : List String → List String)
    (m : List (String × List String)) (k : String)
    (h : containsKey (resolveBridges resolve m) k = true) :
    containsKey m k = true := by
  rw [containsKey_iff_mem_keys] at h ⊢
  exact (resolveBridges_keys_sublist resolve m).mem h

theorem resolveBridges_dropped (resolve : List String → List String)
    (m : List (String × List String)) (br : String) (refs : List String)
    (hnd : (m.map Prod.fst).Nodup)
    (hmem : lookupGrouped m br = some refs)
    (hempty : resolve refs = []) :
    containsKey (resolveBridges resolve m) br = false := by
  by_contra hc
  rw [Bool.not_eq_false, containsKey_iff_exists] at hc
  obtain ⟨vs, hvs⟩ := hc
  have hin := lookupGrouped_mem _ _ _ hvs
  obtain ⟨⟨e0, he0, h1, h2⟩, hne⟩ :=
    (resolveBridges_mem resolve m (br, vs)).mp hin
  have he0' : lookupGrouped m e0.1 = some e0.2 :=
    lookupGrouped_of_mem_nodup m e0 he0 hnd
  rw [← h1] at he0'
  rw [hmem] at he0'
  injection he0' with he0''
  apply hne
  rw [h2, ← he0'', hempty]

theorem obmFold_none (ifb : List (String × List String))
    (toks : List String) (tok : String) (htok : tok ∈ toks)
    (hbad : splitFirstColon tok = none) :
    ∀ a, toks.foldlM (obmStep ifb) a = none := by
  induction toks with
  | nil => cases htok
  | cons t ts ih =>
    intro a
    rcases List.mem_cons.mp htok with rfl | hm
    · simp [List.foldlM_cons, obmStep, hbad]
    · cases hs : splitFirstColon t with
      | none => simp [List.foldlM_cons, obmStep, hs]
      | some pr =>
        cases hc : containsKey ifb pr.2 <;>
          simp [List.foldlM_cons, obmStep, hs, hc, ih hm]

theorem buildOvnMap_none (ifb : List (String × List String)) (obm : String)
    (tok : String) (htok : tok ∈ tokens obm)
    (hbad : splitFirstColon tok = none) :
    buildOvnMap ifb obm = none := by
  have hs : tok ∈ sortedTokens obm := (mem_sortTokens tok _).mpr htok
  exact obmFold_none ifb _ tok hs hbad _

theorem keptPairs_nil (ifb : List (String × List String)) :
    keptPairs ifb [] = [] := rfl

theorem keptPairs_mem (ifb : List (String × List String))
    (toks : List String) (pr : String × String)
    (h : pr ∈ keptPairs ifb toks) :
    containsKey ifb pr.2 = true ∧
      ∃ tok ∈ toks, splitFirstColon tok = some pr := by
  obtain ⟨tok, htok, hf⟩ := List.mem_filterMap.mp h
  cases hs : splitFirstColon tok with
  | none => rw [hs] at hf; cases hf
  | some pr' =>
    rw [hs, Option.some_bind] at hf
    by_cases hc : containsKey ifb pr'.2 = true
    · rw [if_pos hc] at hf
      injection hf with hf
      subst hf
      exact ⟨hc, tok, htok, hs⟩
    · rw [if_neg hc] at hf; cases hf

theorem obmFold_chars (ifb : List (String × List String)) :
    ∀ (toks : List String) (a : String × List (String × List String)) res,
    toks.foldlM (obmStep ifb) a = some res →
    res.1 = commaExtend a.1 ((keptPairs ifb toks).map renderPair) ∧
    (∀ k, containsKey res.2 k = true →
       containsKey a.2 k = true ∨ ∃ pr ∈ keptPairs ifb toks, pr.2 = k) ∧
    (∀ k, containsKey a.2 k = true → containsKey res.2 k = true) := by
  intro toks
  induction toks with
  | nil =>
    intro a res h
    rw [List.foldlM_nil] at h
    injection h with h
    subst h
    exact ⟨rfl, fun k hk => Or.inl hk, fun k hk => hk⟩
  | cons t ts ih =>
    intro a res h
    cases hs : splitFirstColon t with
    | none => simp [List.foldlM_cons, obmStep, hs] at h
    | some pr =>
      obtain ⟨n, b⟩ := pr
      cases hc : containsKey ifb b with
      | false =>
        rw [List.foldlM_cons] at h
        rw [show obmStep ifb a t = some a by simp [obmStep, hs, hc]] at h
        obtain ⟨h1, h2, h3⟩ := ih a res (by simpa using h)
        have hk : keptPairs ifb (t :: ts) = keptPairs ifb ts := by
          simp [keptPairs, List.filterMap_cons, hs, hc]
        refine ⟨by rw [hk]; exact h1, ?_, h3⟩
        intro k hck
        rcases h2 k hck with h' | ⟨pr', hpr', hpk⟩
        · exact Or.inl h'
        · exact Or.inr ⟨pr', by rw [hk]; exact hpr', hpk⟩
      | true =>
        rw [List.foldlM_cons] at h
        rw [show obmStep ifb a t =
            some ((if a.1 = "" then a.1 ++ n ++ ":" ++ b
                   else a.1 ++ "," ++ n ++ ":" ++ b),
                  insertGrouped a.2 b n) by simp [obmStep, hs, hc]] at h
        obtain ⟨h1, h2, h3⟩ := ih _ res (by simpa using h)
        have hk : keptPairs ifb (t :: ts) = (n, b) :: keptPairs ifb ts := by
          simp [keptPairs, List.filterMap_cons, hs, hc]
        have hstr : (if a.1 = "" then a.1 ++ n ++ ":" ++ b
                     else a.1 ++ "," ++ n ++ ":" ++ b) =
            (if a.1 = "" then a.1 ++ renderPair (n, b)
             else a.1 ++ "," ++ renderPair (n, b)) := by
          by_cases he : a.1 = "" <;>
            simp [he, renderPair, String.append_assoc]
        constructor
        · rw [hk, List.map_cons]
          rw [h1, hstr]
          rfl
        constructor
        · intro k hck
          rcases h2 k hck with h' | ⟨pr', hpr', hpk⟩
          · rcases (containsKey_insertGrouped a.2 b n k).mp h' with h'' | rfl
            · exact Or.inl h''
            · exact Or.inr ⟨(n, b), by rw [hk]; exact List.mem_cons_self _ _, rfl⟩
          · exact Or.inr ⟨pr', by rw [hk]; exact List.mem_cons_of_mem _ hpr', hpk⟩
        · intro k hck
          exact h3 k ((containsKey_insertGrouped a.2 b n k).mpr (Or.inl hck))

theorem append_sep_ne (s m t : String) (hm : m.data ≠ []) :
    s ++ m ++ t ≠ "" := by
  intro h
  have hd : (s ++ m ++ t).data = s.data ++ m.data ++ t.data := by
    show (s.data ++ m.data) ++ t.data = _
    simp
  rw [h] at hd
  have : ([] : List Char) = s.data ++ m.data ++ t.data := hd
  rcases List.append_eq_nil.mp this.symm with ⟨h1, _⟩
  exact hm (List.append_eq_nil.mp h1).2

theorem renderPair_ne_empty (pr : String × String) : renderPair pr ≠ "" :=
  append_sep_ne pr.1 ":" pr.2 (by decide)

theorem commaExtend_ne_nil (l : List String) :
    ∀ (s t : String), s ≠ "" →
    commaExtend s (t :: l) = s ++ "," ++ commaJoin (t :: l) := by
  induction l with
  | nil => intro s t hs; simp [commaExtend, commaJoin, hs]
  | cons u l ih =>
    intro s t hs
    rw [show commaExtend s (t :: u :: l) =
        commaExtend (s ++ "," ++ t) (u :: l) by simp [commaExtend, hs]]
    rw [ih (s ++ "," ++ t) u (append_sep_ne s "," t (by decide))]
    show _ = s ++ "," ++ (t ++ "," ++ commaJoin (u :: l))
    simp [String.append_assoc]

theorem commaExtend_empty (l : List String) (h : ∀ t ∈ l, t ≠ "") :
    commaExtend "" l = commaJoin l := by
  cases l with
  | nil => rfl
  | cons t ts =>
    have ht : t ≠ "" := h t (List.mem_cons_self _ _)
    rw [show commaExtend "" (t :: ts) = commaExtend t ts by
      simp [commaExtend]]
    cases ts with
    | nil => rfl
    | cons u ts' =>
      rw [commaExtend_ne_nil ts' t u ht]
      rfl

theorem sortedTokens_sorted (obm : String) :
    (sortedTokens obm).Sorted (fun a b => lexLe a b = true) :=
  sortTokens_pairwise (tokens obm)

theorem keptRenders_eq_filter (ifb : List (String × List String))
    (toks : List String) :
    (keptPairs ifb toks).map renderPair = toks.filter (fun tok =>
      match splitFirstColon tok with
      | some pr => containsKey ifb pr.2
      | none => false) := by
  induction toks with
  | nil => rfl
  | cons t ts ih =>
    cases hs : splitFirstColon t with
    | none =>
      simp only [keptPairs, List.filterMap_cons, List.filter_cons, hs]
      simpa [keptPairs] using ih
    | some pr =>
      cases hc : containsKey ifb pr.2 with
      | false =>
        simp only [keptPairs, List.filterMap_cons, List.filter_cons, hs,
          Option.some_bind, hc]
        simpa [keptPairs] using ih
      | true =>
        simp only [keptPairs, List.filterMap_cons, List.filter_cons, hs,
          Option.some_bind, hc, if_pos, List.map_cons]
        have hrt : renderPair pr = t := by
          have := splitFirstColon_reassemble t pr.1 pr.2 (by
            cases pr; exact hs)
          cases pr; exact this
        rw [hrt]
        refine congrArg (t :: ·) ?_
        simpa [keptPairs] using ih

theorem keptRenders_sorted (ifb : List (String × List String))
    (obm : String) :
    ((keptPairs ifb (sortedTokens obm)).map renderPair).Sorted
      (fun a b => lexLe a b = true) := by
  rw [keptRenders_eq_filter]
  exact List.Pairwise.sublist (List.filter_sublist _) (sortedTokens_sorted obm)

theorem keptRenders_mem_tokens (ifb : List (String × List String))
    (obm : String) (r : String)
    (h : r ∈ (keptPairs ifb (sortedTokens obm)).map renderPair) :
    r ∈ tokens obm := by
  rw [keptRenders_eq_filter] at h
  have h1 : r ∈ sortedTokens obm := List.mem_of_mem_filter h
  exact (mem_sortTokens r _).mp h1

theorem buildOvnMap_chars (ifb : List (String × List String)) (obm : String)
    (mstr : String) (ovnb : List (String × List String))
    (h : buildOvnMap ifb obm = some (mstr, ovnb)) :
    mstr = commaJoin ((keptPairs ifb (sortedTokens obm)).map renderPair) ∧
    (∀ k, containsKey ovnb k = true →
       ∃ pr ∈ keptPairs ifb (sortedTokens obm), pr.2 = k) := by
  obtain ⟨h1, h2, _⟩ := obmFold_chars ifb (sortedTokens obm) ("", []) _ h
  have h1' : mstr =
      commaExtend "" ((keptPairs ifb (sortedTokens obm)).map renderPair) := h1
  have h2' : ∀ k, containsKey ovnb k = true →
      containsKey ([] : List (String × List String)) k = true ∨
        ∃ pr ∈ keptPairs ifb (sortedTokens obm), pr.2 = k := h2
  constructor
  · rw [h1']
    exact commaExtend_empty _ (fun t ht => by
      obtain ⟨pr, _, hpr⟩ := List.mem_map.mp ht
      exact hpr ▸ renderPair_ne_empty pr)
  · intro k hk
    rcases h2' k hk with hc | he
    · simp [containsKey, lookupGrouped] at hc
    · exact he

/-! # Lemmas: state accessors -/

theorem mem_del_br_bridges (s : OVSState) (n : String) (b : Bridge) :
    b ∈ (del_br s n).bridges ↔ b ∈ s.bridges ∧ b.name ≠ n := by
  simp [del_br, List.mem_filter]

theorem mem_del_br_ports (s : OVSState) (n : String) (p : Port) :
    p ∈ (del_br s n).ports ↔ p ∈ s.ports ∧ p.bridge ≠ n := by
  simp [del_br, List.mem_filter]

theorem mem_del_port_ports (s : OVSState) (pn : String) (p : Port) :
    p ∈ (del_port s pn).ports ↔ p ∈ s.ports ∧ p.name ≠ pn := by
  simp [del_port, List.mem_filter]

theorem del_port_bridges (s : OVSState) (pn : String) :
    (del_port s pn).bridges = s.bridges := rfl

theorem del_br_root (s : OVSState) (n : String) :
    (del_br s n).root_external_ids = s.root_external_ids := rfl

theorem del_port_root (s : OVSState) (pn : String) :
    (del_port s pn).root_external_ids = s.root_external_ids := rfl

theorem add_br_bridges (s : OVSState) (n : String) :
    (add_br s n).bridges = s.bridges ++ [⟨n, [(tagKey, "managed")]⟩] := rfl

theorem add_br_ports (s : OVSState) (n : String) :
    (add_br s n).ports = s.ports := rfl

theorem add_port_ports (s : OVSState) (br pn : String) :
    (add_port s br pn).ports = s.ports ++ [⟨pn, br, [(tagKey, br)]⟩] := rfl

theorem add_port_bridges (s : OVSState) (br pn : String) :
    (add_port s br pn).bridges = s.bridges := rfl

theorem add_br_root (s : OVSState) (n : String) :
    (add_br s n).root_external_ids = s.root_external_ids := rfl

theorem add_port_root (s : OVSState) (br pn : String) :
    (add_port s br pn).root_external_ids = s.root_external_ids := rfl

theorem mem_managedBridges (s : OVSState) (b : Bridge) :
    b ∈ managedBridges s ↔ b ∈ s.bridges ∧ bridgeTag b = some "managed" := by
  simp [managedBridges, List.mem_filter]

theorem mem_taggedPorts (s : OVSState) (n : String) (p : Port) :
    p ∈ taggedPorts s n ↔ p ∈ s.ports ∧ portTag p = some n := by
  simp [taggedPorts, List.mem_filter]

theorem bridgeExists_iff (s : OVSState) (n : String) :
    bridgeExists s n = true ↔ ∃ b ∈ s.bridges, b.name = n := by
  simp [bridgeExists, List.any_eq_true]

theorem mem_list_ports (s : OVSState) (br pn : String) :
    pn ∈ list_ports s br ↔ ∃ p ∈ s.ports, p.bridge = br ∧ p.name = pn := by
  simp only [list_ports, List.mem_map, List.mem_filter]
  constructor
  · rintro ⟨p, ⟨hp, hb⟩, rfl⟩
    exact ⟨p, hp, by simpa using hb, rfl⟩
  · rintro ⟨p, hp, hb, rfl⟩
    exact ⟨p, ⟨hp, by simpa using hb⟩, rfl⟩

/-! # Lemmas: trace discipline of the fold steps -/

theorem traceStep_removePortStep (brName : String) (ifaces : List String) :
    TraceStep (removePortStep brName ifaces) := by
  intro s t p
  by_cases h : p.name ∈ ifaces <;> simp [removePortStep, h]

theorem foldl_traceStep {α : Type}
    {f : (OVSState × List Op) → α → (OVSState × List Op)}
    (hf : TraceStep f) (l : List α) :
    ∀ s t, l.foldl f (s, t) =
      ((l.foldl f (s, [])).1, t ++ (l.foldl f (s, [])).2) := by
  induction l with
  | nil => intro s t; simp
  | cons x l ih =>
    intro s t
    simp only [List.foldl_cons]
    rw [hf s t x, hf s [] x, ih _ (t ++ _), ih _ ([] ++ _)]
    simp [List.append_assoc]

theorem traceStep_removeBrStep (ifb : List (String × List String)) :
    TraceStep (removeBrStep ifb) := by
  intro s t b
  simp only [removeBrStep]
  cases h : lookupGrouped ifb b.name with
  | none => simp
  | some ifaces =>
    exact foldl_traceStep (traceStep_removePortStep b.name ifaces) _ s t

theorem traceStep_addPortStep (br : String) : TraceStep (addPortStep br) := by
  intro s t pn
  by_cases h : pn ∈ list_ports s br <;> simp [addPortStep, h]

theorem traceStep_addBrStep (ovnb : List (String × List String)) :
    TraceStep (addBrStep ovnb) := by
  intro s t e
  simp only [addBrStep]
  by_cases hc : containsKey ovnb e.1 = true
  · simp only [hc, if_true]
    by_cases hb : bridgeExists s e.1 = true
    · simp only [hb, if_true]
      exact foldl_traceStep (traceStep_addPortStep e.1) _ s t
    · simp only [hb, Bool.false_eq_true, if_false]
      rw [foldl_traceStep (traceStep_addPortStep e.1) e.2 (add_br s e.1) (t ++ [Op.addBr e.1]),
          foldl_traceStep (traceStep_addPortStep e.1) e.2 (add_br s e.1) ([] ++ [Op.addBr e.1])]
      simp [List.append_assoc]
  · simp [hc]

theorem foldl_trace_extend {α : Type}
    {f : (OVSState × List Op) → α → (OVSState × List Op)}
    (hf : TraceStep f) (l : List α) (s : OVSState) (t : List Op) :
    ∃ t', (l.foldl f (s, t)).2 = t ++ t' := by
  rw [foldl_traceStep hf l s t]
  exact ⟨_, rfl⟩

theorem foldl_noop {α : Type}
    {f : (OVSState × List Op) → α → (OVSState × List Op)}
    (l : List α) (s : OVSState)
    (h : ∀ x ∈ l, f (s, []) x = (s, [])) (hf : TraceStep f) :
    ∀ t, l.foldl f (s, t) = (s, t) := by
  induction l with
  | nil => intro t; rfl
  | cons x l ih =>
    intro t
    rw [List.foldl_cons, hf s t x, h x (List.mem_cons_self _ _)]
    simpa using ih (fun y hy => h y (List.mem_cons_of_mem _ hy)) t

/-! # Lemmas: the inner port-removal fold -/

theorem innerFold_state (brName : String) (ifaces : List String)
    (l : List Port) : ∀ s t,
    (l.foldl (removePortStep brName ifaces) (s, t)).1.bridges = s.bridges ∧
    (l.foldl (removePortStep brName ifaces) (s, t)).1.root_external_ids =
      s.root_external_ids ∧
    ∀ p ∈ (l.foldl (removePortStep brName ifaces) (s, t)).1.ports,
      p ∈ s.ports := by
  induction l with
  | nil => intro s t; exact ⟨rfl, rfl, fun p hp => hp⟩
  | cons q l ih =>
    intro s t
    rw [List.foldl_cons]
    by_cases h : q.name ∈ ifaces
    · rw [show removePortStep brName ifaces (s, t) q = (s, t) by
        simp [removePortStep, h]]
      exact ih s t
    · rw [show removePortStep brName ifaces (s, t) q =
          (del_port s q.name, t ++ [Op.delPort brName q.name]) by
        simp [removePortStep, h]]
      obtain ⟨h1, h2, h3⟩ := ih (del_port s q.name) (t ++ [Op.delPort brName q.name])
      exact ⟨h1, h2, fun p hp =>
        ((mem_del_port_ports s q.name p).mp (h3 p hp)).1⟩

theorem innerFold_killed (brName : String) (ifaces : List String)
    (l : List Port) (pn : String) : ∀ s t,
    (∃ q ∈ l, q.name = pn) → pn ∉ ifaces →
    ∀ p ∈ (l.foldl (removePortStep brName ifaces) (s, t)).1.ports,
      p.name ≠ pn := by
  induction l with
  | nil => rintro s t ⟨q, hq, _⟩; cases hq
  | cons q l ih =>
    rintro s t ⟨q', hq', hqn⟩ hpn
    rw [List.foldl_cons]
    rcases List.mem_cons.mp hq' with rfl | hmem
    · have hnotin : q'.name ∉ ifaces := by rw [hqn]; exact hpn
      rw [show removePortStep brName ifaces (s, t) q' =
          (del_port s q'.name, t ++ [Op.delPort brName q'.name]) by
        simp [removePortStep, hnotin]]
      intro p hp
      have hsub := (innerFold_state brName ifaces l _ _).2.2 p hp
      have hmem2 := (mem_del_port_ports s q'.name p).mp hsub
      rw [hqn] at hmem2
      exact hmem2.2
    · by_cases h : q.name ∈ ifaces
      · rw [show removePortStep brName ifaces (s, t) q = (s, t) by
          simp [removePortStep, h]]
        exact ih s t ⟨q', hmem, hqn⟩ hpn
      · rw [show removePortStep brName ifaces (s, t) q =
            (del_port s q.name, t ++ [Op.delPort brName q.name]) by
          simp [removePortStep, h]]
        exact ih _ _ ⟨q', hmem, hqn⟩ hpn

theorem innerFold_kept (brName : String) (ifaces : List String)
    (l : List Port) (p : Port) : ∀ s t,
    p ∈ s.ports → (∀ q ∈ l, q.name = p.name → q.name ∈ ifaces) →
    p ∈ (l.foldl (removePortStep brName ifaces) (s, t)).1.ports := by
  induction l with
  | nil => intro s t hp _; exact hp
  | cons q l ih =>
    intro s t hp hq
    rw [List.foldl_cons]
    by_cases h : q.name ∈ ifaces
    · rw [show removePortStep brName ifaces (s, t) q = (s, t) by
        simp [removePortStep, h]]
      exact ih s t hp (fun q' hq' => hq q' (List.mem_cons_of_mem _ hq'))
    · rw [show removePortStep brName ifaces (s, t) q =
          (del_port s q.name, t ++ [Op.delPort brName q.name]) by
        simp [removePortStep, h]]
      have hne : q.name ≠ p.name := fun he =>
        h (hq q (List.mem_cons_self _ _) he)
      refine ih _ _ ((mem_del_port_ports s q.name p).mpr
        ⟨hp, fun he => hne he.symm⟩) ?_
      exact fun q' hq' => hq q' (List.mem_cons_of_mem _ hq')

theorem innerFold_ops (brName : String) (ifaces : List String)
    (l : List Port) : ∀ s,
    ∀ op ∈ (l.foldl (removePortStep brName ifaces) (s, [])).2,
    ∃ q ∈ l, q.name ∉ ifaces ∧ op = Op.delPort brName q.name := by
  induction l with
  | nil => intro s op h; cases h
  | cons q l ih =>
    intro s op hop
    rw [List.foldl_cons] at hop
    by_cases h : q.name ∈ ifaces
    · rw [show removePortStep brName ifaces (s, []) q = (s, []) by
        simp [removePortStep, h]] at hop
      obtain ⟨q', h1, h2, h3⟩ := ih s op hop
      exact ⟨q', List.mem_cons_of_mem _ h1, h2, h3⟩
    · rw [show removePortStep brName ifaces (s, []) q =
          (del_port s q.name, [] ++ [Op.delPort brName q.name]) by
        simp [removePortStep, h]] at hop
      rw [foldl_traceStep (traceStep_removePortStep brName ifaces) l _ _] at hop
      rcases List.mem_append.mp hop with h1 | h1
      · rcases List.mem_append.mp h1 with h2 | h2
        · cases h2
        · rw [List.mem_singleton.mp h2]
          exact ⟨q, List.mem_cons_self _ _, h, rfl⟩
      · obtain ⟨q', h2, h3, h4⟩ := ih (del_port s q.name) op h1
        exact ⟨q', List.mem_cons_of_mem _ h2, h3, h4⟩

/-! # Lemmas: the outer bridge-removal fold -/

theorem removeBrStep_none (ifb : List (String × List String))
    (s : OVSState) (t : List Op) (b : Bridge)
    (h : lookupGrouped ifb b.name = none) :
    removeBrStep ifb (s, t) b = (del_br s b.name, t ++ [Op.delBr b.name]) := by
  simp [removeBrStep, h]

theorem removeBrStep_some (ifb : List (String × List String))
    (s : OVSState) (t : List Op) (b : Bridge) (ifs : List String)
    (h : lookupGrouped ifb b.name = some ifs) :
    removeBrStep ifb (s, t) b =
      (taggedPorts s b.name).foldl (removePortStep b.name ifs) (s, t) := by
  simp [removeBrStep, h]

theorem GoodBr_mono (ifb : List (String × List String)) (s s' : OVSState)
    (n : String) (hsub : ∀ p ∈ s'.ports, p ∈ s.ports)
    (h : GoodBr ifb s n) : GoodBr ifb s' n :=
  fun p hp => h p (hsub p hp)

theorem outerFold_subset (ifb : List (String × List String))
    (l : List Bridge) : ∀ s t,
    (∀ b ∈ (l.foldl (removeBrStep ifb) (s, t)).1.bridges, b ∈ s.bridges) ∧
    (∀ p ∈ (l.foldl (removeBrStep ifb) (s, t)).1.ports, p ∈ s.ports) ∧
    (l.foldl (removeBrStep ifb) (s, t)).1.root_external_ids =
      s.root_external_ids := by
  induction l with
  | nil => intro s t; exact ⟨fun b hb => hb, fun p hp => hp, rfl⟩
  | cons x l ih =>
    intro s t
    rw [List.foldl_cons]
    cases hx : lookupGrouped ifb x.name with
    | none =>
      rw [removeBrStep_none ifb s t x hx]
      obtain ⟨h1, h2, h3⟩ := ih (del_br s x.name) (t ++ [Op.delBr x.name])
      exact ⟨fun b hb => ((mem_del_br_bridges s x.name b).mp (h1 b hb)).1,
        fun p hp => ((mem_del_br_ports s x.name p).mp (h2 p hp)).1, h3⟩
    | some ifs =>
      rw [removeBrStep_some ifb s t x ifs hx]
      obtain ⟨g1, g2, g3⟩ := innerFold_state x.name ifs (taggedPorts s x.name) s t
      obtain ⟨h1, h2, h3⟩ := ih _ _
      refine ⟨fun b hb => ?_, fun p hp => g3 p (h2 p hp), h3.trans g2⟩
      have := h1 b hb
      rw [g1] at this
      exact this

theorem outerFold_bridge_kept (ifb : List (String × List String))
    (l : List Bridge) : ∀ s t (b : Bridge),
    b ∈ s.bridges →
    (∀ x ∈ l, lookupGrouped ifb x.name = none → x.name ≠ b.name) →
    b ∈ (l.foldl (removeBrStep ifb) (s, t)).1.bridges := by
  induction l with
  | nil => intro s t b hb _; exact hb
  | cons x l ih =>
    intro s t b hb hcond
    rw [List.foldl_cons]
    cases hx : lookupGrouped ifb x.name with
    | none =>
      rw [removeBrStep_none ifb s t x hx]
      refine ih _ _ b ((mem_del_br_bridges s x.name b).mpr
        ⟨hb, fun he => hcond x (List.mem_cons_self _ _) hx he.symm⟩) ?_
      exact fun y hy => hcond y (List.mem_cons_of_mem _ hy)
    | some ifs =>
      rw [removeBrStep_some ifb s t x ifs hx]
      have g1 := (innerFold_state x.name ifs (taggedPorts s x.name) s t).1
      refine ih _ _ b ?_ (fun y hy => hcond y (List.mem_cons_of_mem _ hy))
      rw [g1]
      exact hb

theorem outerFold_port_kept (ifb : List (String × List String))
    (l : List Bridge) : ∀ s t (p : Port),
    p ∈ s.ports →
    (∀ x ∈ l, lookupGrouped ifb x.name = none → x.name ≠ p.bridge) →
    (∀ x ∈ l, ∀ ifs, lookupGrouped ifb x.name = some ifs →
       ∀ q ∈ s.ports, portTag q = some x.name → q.name = p.name →
         p.name ∈ ifs) →
    p ∈ (l.foldl (removeBrStep ifb) (s, t)).1.ports := by
  induction l with
  | nil => intro s t p hp _ _; exact hp
  | cons x l ih =>
    intro s t p hp h1 h2
    rw [List.foldl_cons]
    cases hx : lookupGrouped ifb x.name with
    | none =>
      rw [removeBrStep_none ifb s t x hx]
      refine ih _ _ p ((mem_del_br_ports s x.name p).mpr
        ⟨hp, fun he => h1 x (List.mem_cons_self _ _) hx he.symm⟩)
        (fun y hy => h1 y (List.mem_cons_of_mem _ hy)) ?_
      intro y hy ifs hys q hq htag hname
      exact h2 y (List.mem_cons_of_mem _ hy) ifs hys q
        ((mem_del_br_ports s x.name q).mp hq).1 htag hname
    | some ifs =>
      rw [removeBrStep_some ifb s t x ifs hx]
      have hkept : p ∈ ((taggedPorts s x.name).foldl
          (removePortStep x.name ifs) (s, t)).1.ports := by
        refine innerFold_kept x.name ifs _ p s t hp ?_
        intro q hq hname
        obtain ⟨hq1, hq2⟩ := (mem_taggedPorts s x.name q).mp hq
        rw [hname]
        exact h2 x (List.mem_cons_self _ _) ifs hx q hq1 hq2 hname
      have hsub := (innerFold_state x.name ifs (taggedPorts s x.name) s t).2.2
      refine ih _ _ p hkept
        (fun y hy => h1 y (List.mem_cons_of_mem _ hy)) ?_
      intro y hy ifs' hys q hq htag hname
      exact h2 y (List.mem_cons_of_mem _ hy) ifs' hys q (hsub q hq) htag hname

theorem outerFold_managed_declared (ifb : List (String × List String))
    (l : List Bridge) : ∀ s t,
    (∀ b ∈ s.bridges, bridgeTag b = some "managed" →
      containsKey ifb b.name = true ∨ b ∈ l) →
    ∀ b ∈ (l.foldl (removeBrStep ifb) (s, t)).1.bridges,
      bridgeTag b = some "managed" → containsKey ifb b.name = true := by
  induction l with
  | nil =>
    intro s t hyp b hb htag
    rcases hyp b hb htag with h | h
    · exact h
    · cases h
  | cons x l ih =>
    intro s t hyp
    rw [List.foldl_cons]
    cases hx : lookupGrouped ifb x.name with
    | none =>
      rw [removeBrStep_none ifb s t x hx]
      refine ih _ _ ?_
      intro b hb htag
      obtain ⟨hb1, hb2⟩ := (mem_del_br_bridges s x.name b).mp hb
      rcases hyp b hb1 htag with h | h
      · exact Or.inl h
      · rcases List.mem_cons.mp h with rfl | h'
        · exact absurd rfl hb2
        · exact Or.inr h'
    | some ifs =>
      rw [removeBrStep_some ifb s t x ifs hx]
      have g1 := (innerFold_state x.name ifs (taggedPorts s x.name) s t).1
      refine ih _ _ ?_
      intro b hb htag
      rw [g1] at hb
      rcases hyp b hb htag with h | h
      · exact Or.inl h
      · rcases List.mem_cons.mp h with rfl | h'
        · exact Or.inl ((containsKey_iff_exists ifb b.name).mpr ⟨ifs, hx⟩)
        · exact Or.inr h'

theorem outerFold_good (ifb : List (String × List String))
    (l : List Bridge) : ∀ s t,
    (∀ b ∈ s.bridges, bridgeTag b = some "managed" →
       b ∈ l ∨ GoodBr ifb s b.name) →
    ∀ b ∈ (l.foldl (removeBrStep ifb) (s, t)).1.bridges,
      bridgeTag b = some "managed" →
      GoodBr ifb (l.foldl (removeBrStep ifb) (s, t)).1 b.name := by
  induction l with
  | nil =>
    intro s t hyp b hb htag
    rcases hyp b hb htag with h | h
    · cases h
    · exact h
  | cons x l ih =>
    intro s t hyp
    rw [List.foldl_cons]
    cases hx : lookupGrouped ifb x.name with
    | none =>
      rw [removeBrStep_none ifb s t x hx]
      refine ih _ _ ?_
      intro b hb htag
      obtain ⟨hb1, hb2⟩ := (mem_del_br_bridges s x.name b).mp hb
      rcases hyp b hb1 htag with h | h
      · rcases List.mem_cons.mp h with rfl | h'
        · exact absurd rfl hb2
        · exact Or.inl h'
      · refine Or.inr (GoodBr_mono ifb s _ b.name ?_ h)
        exact fun p hp => ((mem_del_br_ports s x.name p).mp hp).1
    | some ifs =>
      rw [removeBrStep_some ifb s t x ifs hx]
      obtain ⟨g1, _, g3⟩ := innerFold_state x.name ifs (taggedPorts s x.name) s t
      refine ih _ _ ?_
      intro b hb htag
      rw [g1] at hb
      rcases hyp b hb htag with h | h
      · rcases List.mem_cons.mp h with rfl | h'
        · refine Or.inr ?_
          intro p hp htagp ifs' hlk
          rw [hx] at hlk
          injection hlk with hlk
          subst hlk
          by_contra hnot
          have hkill := innerFold_killed b.name ifs
            (taggedPorts s b.name) p.name s t
            ⟨p, (mem_taggedPorts s b.name p).mpr ⟨g3 p hp, htagp⟩, rfl⟩
            hnot p hp
          exact hkill rfl
        · exact Or.inl h'
      · exact Or.inr (GoodBr_mono ifb s _ b.name g3 h)

theorem outerFold_ops (ifb : List (String × List String))
    (l : List Bridge) : ∀ s,
    ∀ op ∈ (l.foldl (removeBrStep ifb) (s, [])).2,
    (∃ x ∈ l, lookupGrouped ifb x.name = none ∧ op = Op.delBr x.name) ∨
    (∃ x ∈ l, ∃ ifs, lookupGrouped ifb x.name = some ifs ∧
       ∃ q ∈ s.ports, portTag q = some x.name ∧ q.name ∉ ifs ∧
         op = Op.delPort x.name q.name) := by
  induction l with
  | nil => intro s op h; cases h
  | cons x l ih =>
    intro s op hop
    rw [List.foldl_cons] at hop
    cases hx : lookupGrouped ifb x.name with
    | none =>
      rw [removeBrStep_none ifb s [] x hx,
        foldl_traceStep (traceStep_removeBrStep ifb) l _ _] at hop
      rcases List.mem_append.mp hop with h1 | h1
      · rcases List.mem_append.mp h1 with h2 | h2
        · cases h2
        · rw [List.mem_singleton.mp h2]
          exact Or.inl ⟨x, List.mem_cons_self _ _, hx, rfl⟩
      · rcases ih (del_br s x.name) op h1 with
          ⟨y, hy, hly, he⟩ | ⟨y, hy, ifs, hly, q, hq, htag, hni, he⟩
        · exact Or.inl ⟨y, List.mem_cons_of_mem _ hy, hly, he⟩
        · exact Or.inr ⟨y, List.mem_cons_of_mem _ hy, ifs, hly, q,
            ((mem_del_br_ports s x.name q).mp hq).1, htag, hni, he⟩
    | some ifs =>
      rw [removeBrStep_some ifb s [] x ifs hx,
        foldl_traceStep (traceStep_removeBrStep ifb) l _ _] at hop
      obtain ⟨_, _, g3⟩ := innerFold_state x.name ifs (taggedPorts s x.name) s []
      rcases List.mem_append.mp hop with h1 | h1
      · obtain ⟨q, hq, hni, he⟩ := innerFold_ops x.name ifs _ s op h1
        obtain ⟨hq1, hq2⟩ := (mem_taggedPorts s x.name q).mp hq
        exact Or.inr ⟨x, List.mem_cons_self _ _, ifs, hx, q, hq1, hq2, hni, he⟩
      · rcases ih _ op h1 with
          ⟨y, hy, hly, he⟩ | ⟨y, hy, ifs', hly, q, hq, htag, hni, he⟩
        · exact Or.inl ⟨y, List.mem_cons_of_mem _ hy, hly, he⟩
        · exact Or.inr ⟨y, List.mem_cons_of_mem _ hy, ifs', hly, q,
            g3 q hq, htag, hni, he⟩

theorem outerFold_delBr_mem (ifb : List (String × List String))
    (l : List Bridge) : ∀ s t (x : Bridge),
    x ∈ l → lookupGrouped ifb x.name = none →
    Op.delBr x.name ∈ (l.foldl (removeBrStep ifb) (s, t)).2 := by
  induction l with
  | nil => intro s t x hx; cases hx
  | cons y l ih =>
    intro s t x hx hlk
    rw [List.foldl_cons]
    rcases List.mem_cons.mp hx with rfl | hmem
    · rw [removeBrStep_none ifb s t x hlk]
      obtain ⟨t', ht'⟩ := foldl_trace_extend (traceStep_removeBrStep ifb) l
        (del_br s x.name) (t ++ [Op.delBr x.name])
      rw [ht']
      exact List.mem_append_left _ (List.mem_append_right _
        (List.mem_singleton.mpr rfl))
    · cases hy : lookupGrouped ifb y.name with
      | none =>
        rw [removeBrStep_none ifb s t y hy]
        exact ih _ _ x hmem hlk
      | some ifs =>
        rw [removeBrStep_some ifb s t y ifs hy]
        exact ih _ _ x hmem hlk

/-! # Lemmas: the removal phase -/

theorem removePhase_subset (ifb : List (String × List String))
    (s : OVSState) :
    (∀ b ∈ (removePhase ifb s).1.bridges, b ∈ s.bridges) ∧
    (∀ p ∈ (removePhase ifb s).1.ports, p ∈ s.ports) ∧
    (removePhase ifb s).1.root_external_ids = s.root_external_ids :=
  outerFold_subset ifb (managedBridges s) s []

theorem removePhase_managed_declared (ifb : List (String × List String))
    (s : OVSState) :
    ∀ b ∈ (removePhase ifb s).1.bridges, bridgeTag b = some "managed" →
      containsKey ifb b.name = true := by
  refine outerFold_managed_declared ifb (managedBridges s) s [] ?_
  intro b hb htag
  exact Or.inr ((mem_managedBridges s b).mpr ⟨hb, htag⟩)

theorem removePhase_good (ifb : List (String × List String)) (s : OVSState) :
    ∀ b ∈ (removePhase ifb s).1.bridges, bridgeTag b = some "managed" →
      GoodBr ifb (removePhase ifb s).1 b.name := by
  refine outerFold_good ifb (managedBridges s) s [] ?_
  intro b hb htag
  exact Or.inl ((mem_managedBridges s b).mpr ⟨hb, htag⟩)

theorem removePhase_bridge_kept (ifb : List (String × List String))
    (s : OVSState) (b : Bridge) (hb : b ∈ s.bridges)
    (hck : containsKey ifb b.name = true) :
    b ∈ (removePhase ifb s).1.bridges := by
  refine outerFold_bridge_kept ifb (managedBridges s) s [] b hb ?_
  intro x _ hnone he
  rw [he] at hnone
  rw [(containsKey_iff_exists ifb b.name).mp hck |>.choose_spec] at hnone
  cases hnone

theorem removePhase_bridgeExists_kept (ifb : List (String × List String))
    (s : OVSState) (n : String) (hck : containsKey ifb n = true)
    (hex : bridgeExists s n = true) :
    bridgeExists (removePhase ifb s).1 n = true := by
  obtain ⟨b, hb, rfl⟩ := (bridgeExists_iff s n).mp hex
  exact (bridgeExists_iff _ _).mpr
    ⟨b, removePhase_bridge_kept ifb s b hb hck, rfl⟩

theorem removePhase_ops (ifb : List (String × List String)) (s : OVSState) :
    ∀ op ∈ (removePhase ifb s).2,
    (∃ x ∈ s.bridges, bridgeTag x = some "managed" ∧
       lookupGrouped ifb x.name = none ∧ op = Op.delBr x.name) ∨
    (∃ x ∈ s.bridges, bridgeTag x = some "managed" ∧
       ∃ ifs, lookupGrouped ifb x.name = some ifs ∧
       ∃ q ∈ s.ports, portTag q = some x.name ∧ q.name ∉ ifs ∧
         op = Op.delPort x.name q.name) := by
  intro op hop
  rcases outerFold_ops ifb (managedBridges s) s op hop with
    ⟨x, hx, hlk, he⟩ | ⟨x, hx, ifs, hlk, q, hq, htag, hni, he⟩
  · obtain ⟨hx1, hx2⟩ := (mem_managedBridges s x).mp hx
    exact Or.inl ⟨x, hx1, hx2, hlk, he⟩
  · obtain ⟨hx1, hx2⟩ := (mem_managedBridges s x).mp hx
    exact Or.inr ⟨x, hx1, hx2, ifs, hlk, q, hq, htag, hni, he⟩

theorem removePhase_delBr_mem (ifb : List (String × List String))
    (s : OVSState) (x : Bridge) (hx : x ∈ s.bridges)
    (htag : bridgeTag x = some "managed")
    (hlk : lookupGrouped ifb x.name = none) :
    Op.delBr x.name ∈ (removePhase ifb s).2 :=
  outerFold_delBr_mem ifb (managedBridges s) s [] x
    ((mem_managedBridges s x).mpr ⟨hx, htag⟩) hlk

theorem removePhase_unmanaged_kept (ifb : List (String × List String))
    (s : OVSState) (b : Bridge) (hb : b ∈ s.bridges)
    (hun : bridgeTag b ≠ some "managed")
    (hnd : (s.bridges.map Bridge.name).Nodup) :
    b ∈ (removePhase ifb s).1.bridges := by
  refine outerFold_bridge_kept ifb (managedBridges s) s [] b hb ?_
  intro x hx _ he
  obtain ⟨hx1, hx2⟩ := (mem_managedBridges s x).mp hx
  have : x = b := List.inj_on_of_nodup_map hnd hx1 hb he
  rw [this] at hx2
  exact hun hx2

theorem removePhase_untagged_port (ifb : List (String × List String))
    (s : OVSState) (p : Port) (hp : p ∈ s.ports)
    (hun : portTag p = none)
    (hnd : (s.ports.map Port.name).Nodup) :
    p ∈ (removePhase ifb s).1.ports ∨
      ∃ x ∈ s.bridges, bridgeTag x = some "managed" ∧ x.name = p.bridge ∧
        lookupGrouped ifb x.name = none := by
  by_cases hdel : ∃ x ∈ s.bridges, bridgeTag x = some "managed" ∧
      x.name = p.bridge ∧ lookupGrouped ifb x.name = none
  · exact Or.inr hdel
  · refine Or.inl (outerFold_port_kept ifb (managedBridges s) s [] p hp ?_ ?_)
    · intro x hx hnone he
      obtain ⟨hx1, hx2⟩ := (mem_managedBridges s x).mp hx
      exact hdel ⟨x, hx1, hx2, he, hnone⟩
    · intro x _ ifs _ q hq htag hname
      have : q = p := List.inj_on_of_nodup_map hnd hq hp hname
      rw [this, hun] at htag
      cases htag

/-! # Lemmas: the inner port-addition fold -/

theorem addPortStep_skip (br : String) (s : OVSState) (t : List Op)
    (pn : String) (h : pn ∈ list_ports s br) :
    addPortStep br (s, t) pn = (s, t) := by
  simp [addPortStep, h]

theorem addPortStep_add (br : String) (s : OVSState) (t : List Op)
    (pn : String) (h : pn ∉ list_ports s br) :
    addPortStep br (s, t) pn =
      (add_port s br pn, t ++ [Op.addPort br pn, Op.linkUp pn]) := by
  simp [addPortStep, h]

theorem list_ports_add_port_mono (s : OVSState) (br br' pn pn' : String)
    (h : pn ∈ list_ports s br) : pn ∈ list_ports (add_port s br' pn') br := by
  rw [mem_list_ports] at h ⊢
  obtain ⟨p, hp, h1, h2⟩ := h
  exact ⟨p, by rw [add_port_ports]; exact List.mem_append_left _ hp, h1, h2⟩

theorem bridgeExists_add_port (s : OVSState) (br pn n : String) :
    bridgeExists (add_port s br pn) n = bridgeExists s n := rfl

theorem addInner_state (br : String) (l : List String) : ∀ s t,
    (l.foldl (addPortStep br) (s, t)).1.bridges = s.bridges ∧
    (l.foldl (addPortStep br) (s, t)).1.root_external_ids =
      s.root_external_ids ∧
    (∀ p ∈ s.ports, p ∈ (l.foldl (addPortStep br) (s, t)).1.ports) ∧
    (∀ p ∈ (l.foldl (addPortStep br) (s, t)).1.ports,
      p ∈ s.ports ∨ ∃ pn ∈ l, p = ⟨pn, br, [(tagKey, br)]⟩) := by
  induction l with
  | nil => intro s t; exact ⟨rfl, rfl, fun p hp => hp, fun p hp => Or.inl hp⟩
  | cons pn l ih =>
    intro s t
    rw [List.foldl_cons]
    by_cases h : pn ∈ list_ports s br
    · rw [addPortStep_skip br s t pn h]
      obtain ⟨h1, h2, h3, h4⟩ := ih s t
      refine ⟨h1, h2, h3, fun p hp => ?_⟩
      rcases h4 p hp with h' | ⟨pn', hpn', he⟩
      · exact Or.inl h'
      · exact Or.inr ⟨pn', List.mem_cons_of_mem _ hpn', he⟩
    · rw [addPortStep_add br s t pn h]
      obtain ⟨h1, h2, h3, h4⟩ := ih (add_port s br pn) _
      refine ⟨h1, h2, fun p hp => ?_, fun p hp => ?_⟩
      · exact h3 p (by rw [add_port_ports]; exact List.mem_append_left _ hp)
      · rcases h4 p hp with h' | ⟨pn', hpn', he⟩
        · rw [add_port_ports] at h'
          rcases List.mem_append.mp h' with h'' | h''
          · exact Or.inl h''
          · exact Or.inr ⟨pn, List.mem_cons_self _ _,
              List.mem_singleton.mp h''⟩
        · exact Or.inr ⟨pn', List.mem_cons_of_mem _ hpn', he⟩

theorem list_ports_addInner_mono (br br' : String) (l : List String) :
    ∀ s t pn, pn ∈ list_ports s br' →
    pn ∈ list_ports (l.foldl (addPortStep br) (s, t)).1 br' := by
  intro s t pn h
  rw [mem_list_ports] at h ⊢
  obtain ⟨p, hp, h1, h2⟩ := h
  exact ⟨p, (addInner_state br l s t).2.2.1 p hp, h1, h2⟩

theorem addInner_ensures (br : String) (l : List String) : ∀ s t,
    ∀ pn ∈ l, pn ∈ list_ports (l.foldl (addPortStep br) (s, t)).1 br := by
  induction l with
  | nil => intro s t pn hpn; cases hpn
  | cons pn0 l ih =>
    intro s t pn hpn
    rw [List.foldl_cons]
    rcases List.mem_cons.mp hpn with rfl | hmem
    · by_cases h : pn ∈ list_ports s br
      · rw [addPortStep_skip br s t pn h]
        exact list_ports_addInner_mono br br l s t pn h
      · rw [addPortStep_add br s t pn h]
        refine list_ports_addInner_mono br br l _ _ pn ?_
        rw [mem_list_ports]
        exact ⟨⟨pn, br, [(tagKey, br)]⟩, by
          rw [add_port_ports]
          exact List.mem_append_right _ (List.mem_singleton.mpr rfl), rfl, rfl⟩
    · by_cases h : pn0 ∈ list_ports s br
      · rw [addPortStep_skip br s t pn0 h]
        exact ih s t pn hmem
      · rw [addPortStep_add br s t pn0 h]
        exact ih _ _ pn hmem

theorem addInner_ops (br : String) (l : List String) : ∀ s,
    ∀ op ∈ (l.foldl (addPortStep br) (s, [])).2,
    ∃ pn ∈ l, op = Op.addPort br pn ∨ op = Op.linkUp pn := by
  induction l with
  | nil => intro s op h; cases h
  | cons pn l ih =>
    intro s op hop
    rw [List.foldl_cons] at hop
    by_cases h : pn ∈ list_ports s br
    · rw [addPortStep_skip br s [] pn h] at hop
      obtain ⟨pn', h1, h2⟩ := ih s op hop
      exact ⟨pn', List.mem_cons_of_mem _ h1, h2⟩
    · rw [addPortStep_add br s [] pn h,
        foldl_traceStep (traceStep_addPortStep br) l _ _] at hop
      rcases List.mem_append.mp hop with h1 | h1
      · rcases List.mem_append.mp h1 with h2 | h2
        · cases h2
        · rcases List.mem_cons.mp h2 with rfl | h3
          · exact ⟨pn, List.mem_cons_self _ _, Or.inl rfl⟩
          · rw [List.mem_singleton.mp h3]
            exact ⟨pn, List.mem_cons_self _ _, Or.inr rfl⟩
      · obtain ⟨pn', h2, h3⟩ := ih (add_port s br pn) op h1
        exact ⟨pn', List.mem_cons_of_mem _ h2, h3⟩

theorem addInner_noop (br : String) (l : List String) (s : OVSState)
    (h : ∀ pn ∈ l, pn ∈ list_ports s br) :
    ∀ t, l.foldl (addPortStep br) (s, t) = (s, t) :=
  foldl_noop l s (fun pn hpn => addPortStep_skip br s [] pn (h pn hpn))
    (traceStep_addPortStep br)

/-! # Lemmas: the outer bridge-addition fold -/

theorem addBrStep_skip (ovnb : List (String × List String)) (s : OVSState)
    (t : List Op) (e : String × List String)
    (h : containsKey ovnb e.1 = false) : addBrStep ovnb (s, t) e = (s, t) := by
  simp [addBrStep, h]

theorem addBrStep_exists (ovnb : List (String × List String)) (s : OVSState)
    (t : List Op) (e : String × List String)
    (hc : containsKey ovnb e.1 = true) (hb : bridgeExists s e.1 = true) :
    addBrStep ovnb (s, t) e = e.2.foldl (addPortStep e.1) (s, t) := by
  simp [addBrStep, hc, hb]

theorem addBrStep_create (ovnb : List (String × List String)) (s : OVSState)
    (t : List Op) (e : String × List String)
    (hc : containsKey ovnb e.1 = true) (hb : bridgeExists s e.1 = false) :
    addBrStep ovnb (s, t) e =
      e.2.foldl (addPortStep e.1) (add_br s e.1, t ++ [Op.addBr e.1]) := by
  simp [addBrStep, hc, hb]

theorem bridgeExists_mono (s s' : OVSState)
    (hsub : ∀ b ∈ s.bridges, b ∈ s'.bridges) (n : String)
    (h : bridgeExists s n = true) : bridgeExists s' n = true := by
  rw [bridgeExists_iff] at h ⊢
  obtain ⟨b, hb, he⟩ := h
  exact ⟨b, hsub b hb, he⟩

theorem list_ports_mono (s s' : OVSState)
    (hsub : ∀ p ∈ s.ports, p ∈ s'.ports) (br pn : String)
    (h : pn ∈ list_ports s br) : pn ∈ list_ports s' br := by
  rw [mem_list_ports] at h ⊢
  obtain ⟨p, hp, h1, h2⟩ := h
  exact ⟨p, hsub p hp, h1, h2⟩

theorem addFold_state (ovnb : List (String × List String))
    (l : List (String × List String)) : ∀ s t,
    (∀ b ∈ s.bridges, b ∈ (l.foldl (addBrStep ovnb) (s, t)).1.bridges) ∧
    (∀ b ∈ (l.foldl (addBrStep ovnb) (s, t)).1.bridges,
       b ∈ s.bridges ∨
       (b.external_ids = [(tagKey, "managed")] ∧
        (∃ e ∈ l, e.1 = b.name ∧ containsKey ovnb e.1 = true) ∧
        bridgeExists s b.name = false)) ∧
    (∀ p ∈ s.ports, p ∈ (l.foldl (addBrStep ovnb) (s, t)).1.ports) ∧
    (∀ p ∈ (l.foldl (addBrStep ovnb) (s, t)).1.ports,
       p ∈ s.ports ∨
       ∃ e ∈ l, containsKey ovnb e.1 = true ∧
         ∃ pn ∈ e.2, p = ⟨pn, e.1, [(tagKey, e.1)]⟩) ∧
    (l.foldl (addBrStep ovnb) (s, t)).1.root_external_ids =
      s.root_external_ids := by
  induction l with
  | nil =>
    intro s t
    exact ⟨fun b hb => hb, fun b hb => Or.inl hb, fun p hp => hp,
      fun p hp => Or.inl hp, rfl⟩
  | cons e l ih =>
    intro s t
    rw [List.foldl_cons]
    cases hc : containsKey ovnb e.1 with
    | false =>
      rw [addBrStep_skip ovnb s t e hc]
      obtain ⟨h1, h2, h3, h4, h5⟩ := ih s t
      refine ⟨h1, fun b hb => ?_, h3, fun p hp => ?_, h5⟩
      · rcases h2 b hb with h' | ⟨ha, ⟨e', he', hn, hc'⟩, hx⟩
        · exact Or.inl h'
        · exact Or.inr ⟨ha, ⟨e', List.mem_cons_of_mem _ he', hn, hc'⟩, hx⟩
      · rcases h4 p hp with h' | ⟨e', he', hc', rest⟩
        · exact Or.inl h'
        · exact Or.inr ⟨e', List.mem_cons_of_mem _ he', hc', rest⟩
    | true =>
      cases hb : bridgeExists s e.1 with
      | true =>
        rw [addBrStep_exists ovnb s t e hc hb]
        obtain ⟨g1, g2, g3, g4⟩ := addInner_state e.1 e.2 s t
        obtain ⟨h1, h2, h3, h4, h5⟩ := ih _ _
        refine ⟨?_, ?_, ?_, ?_, ?_⟩
        · intro b hbb
          apply h1
          rw [g1]
          exact hbb
        · intro b hbb
          rcases h2 b hbb with h' | ⟨ha, ⟨e', he', hn, hc'⟩, hx⟩
          · rw [g1] at h'
            exact Or.inl h'
          · refine Or.inr ⟨ha, ⟨e', List.mem_cons_of_mem _ he', hn, hc'⟩, ?_⟩
            rw [show bridgeExists ((e.2.foldl (addPortStep e.1) (s, t)).1)
                b.name = bridgeExists s b.name by
              unfold bridgeExists; rw [g1]] at hx
            exact hx
        · intro p hp
          exact h3 p (g3 p hp)
        · intro p hp
          rcases h4 p hp with h' | ⟨e', he', hc', rest⟩
          · rcases g4 p h' with h'' | ⟨pn, hpn, he⟩
            · exact Or.inl h''
            · exact Or.inr ⟨e, List.mem_cons_self _ _, hc, pn, hpn, he⟩
          · exact Or.inr ⟨e', List.mem_cons_of_mem _ he', hc', rest⟩
        · rw [h5, g2]
      | false =>
        rw [addBrStep_create ovnb s t e hc hb]
        obtain ⟨g1, g2, g3, g4⟩ := addInner_state e.1 e.2 (add_br s e.1)
          (t ++ [Op.addBr e.1])
        obtain ⟨h1, h2, h3, h4, h5⟩ := ih _ _
        refine ⟨?_, ?_, ?_, ?_, ?_⟩
        · intro b hbb
          apply h1
          rw [g1, add_br_bridges]
          exact List.mem_append_left _ hbb
        · intro b hbb
          rcases h2 b hbb with h' | ⟨ha, ⟨e', he', hn, hc'⟩, hx⟩
          · rw [g1, add_br_bridges] at h'
            rcases List.mem_append.mp h' with h'' | h''
            · exact Or.inl h''
            · rw [List.mem_singleton.mp h'']
              exact Or.inr ⟨rfl, ⟨e, List.mem_cons_self _ _, rfl, hc⟩, hb⟩
          · refine Or.inr ⟨ha, ⟨e', List.mem_cons_of_mem _ he', hn, hc'⟩, ?_⟩
            cases hxs : bridgeExists s b.name with
            | false => rfl
            | true =>
              rw [show bridgeExists ((e.2.foldl (addPortStep e.1)
                  (add_br s e.1, t ++ [Op.addBr e.1])).1) b.name = true from ?_] at hx
              · cases hx
              · refine bridgeExists_mono s _ ?_ b.name hxs
                intro b' hb'
                rw [g1, add_br_bridges]
                exact List.mem_append_left _ hb'
        · intro p hp
          exact h3 p (g3 p (show p ∈ (add_br s e.1).ports from hp))
        · intro p hp
          rcases h4 p hp with h' | ⟨e', he', hc', rest⟩
          · rcases g4 p h' with h'' | ⟨pn, hpn, he⟩
            · exact Or.inl (show p ∈ s.ports from h'')
            · exact Or.inr ⟨e, List.mem_cons_self _ _, hc, pn, hpn, he⟩
          · exact Or.inr ⟨e', List.mem_cons_of_mem _ he', hc', rest⟩
        · rw [h5, g2, add_br_root]

theorem addFold_estab (ovnb : List (String × List String))
    (l : List (String × List String)) : ∀ s t,
    ∀ e ∈ l, containsKey ovnb e.1 = true →
      bridgeExists (l.foldl (addBrStep ovnb) (s, t)).1 e.1 = true ∧
      ∀ pn ∈ e.2, pn ∈ list_ports (l.foldl (addBrStep ovnb) (s, t)).1 e.1 := by
  induction l with
  | nil => intro s t e he; cases he
  | cons e0 l ih =>
    intro s t e he hc
    rw [List.foldl_cons]
    rcases List.mem_cons.mp he with rfl | hmem
    · -- the head entry: the step itself establishes the property, the tail
      -- fold preserves it by monotonicity
      have hmono := addFold_state ovnb l
      cases hb : bridgeExists s e.1 with
      | true =>
        rw [addBrStep_exists ovnb s t e hc hb]
        obtain ⟨g1, _, g3, _⟩ := addInner_state e.1 e.2 s t
        obtain ⟨m1, _, m3, _, _⟩ := hmono _ _
        constructor
        · refine bridgeExists_mono _ _ m1 e.1 ?_
          refine bridgeExists_mono s _ ?_ e.1 hb
          intro b hbb
          rw [g1]
          exact hbb
        · intro pn hpn
          refine list_ports_mono _ _ m3 e.1 pn ?_
          exact addInner_ensures e.1 e.2 s t pn hpn
      | false =>
        rw [addBrStep_create ovnb s t e hc hb]
        obtain ⟨g1, _, g3, _⟩ := addInner_state e.1 e.2 (add_br s e.1)
          (t ++ [Op.addBr e.1])
        obtain ⟨m1, _, m3, _, _⟩ := hmono _ _
        constructor
        · refine bridgeExists_mono _ _ m1 e.1 ?_
          refine bridgeExists_mono (add_br s e.1) _ ?_ e.1 ?_
          · intro b hbb
            rw [g1]
            exact hbb
          · rw [bridgeExists_iff]
            exact ⟨⟨e.1, [(tagKey, "managed")]⟩, by
              rw [add_br_bridges]
              exact List.mem_append_right _ (List.mem_singleton.mpr rfl), rfl⟩
        · intro pn hpn
          refine list_ports_mono _ _ m3 e.1 pn ?_
          exact addInner_ensures e.1 e.2 _ _ pn hpn
    · cases hc0 : containsKey ovnb e0.1 with
      | false =>
        rw [addBrStep_skip ovnb s t e0 hc0]
        exact ih s t e hmem hc
      | true =>
        cases hb : bridgeExists s e0.1 with
        | true =>
          rw [addBrStep_exists ovnb s t e0 hc0 hb]
          exact ih _ _ e hmem hc
        | false =>
          rw [addBrStep_create ovnb s t e0 hc0 hb]
          exact ih _ _ e hmem hc

theorem addFold_ops (ovnb : List (String × List String))
    (l : List (String × List String)) : ∀ s,
    ∀ op ∈ (l.foldl (addBrStep ovnb) (s, [])).2,
    ∃ e ∈ l, containsKey ovnb e.1 = true ∧
      (op = Op.addBr e.1 ∨ ∃ pn ∈ e.2,
        op = Op.addPort e.1 pn ∨ op = Op.linkUp pn) := by
  induction l with
  | nil => intro s op h; cases h
  | cons e l ih =>
    intro s op hop
    rw [List.foldl_cons] at hop
    cases hc : containsKey ovnb e.1 with
    | false =>
      rw [addBrStep_skip ovnb s [] e hc] at hop
      obtain ⟨e', h1, h2, h3⟩ := ih s op hop
      exact ⟨e', List.mem_cons_of_mem _ h1, h2, h3⟩
    | true =>
      cases hb : bridgeExists s e.1 with
      | true =>
        rw [addBrStep_exists ovnb s [] e hc hb,
          foldl_traceStep (traceStep_addBrStep ovnb) l _ _] at hop
        rcases List.mem_append.mp hop with h1 | h1
        · obtain ⟨pn, hpn, h2⟩ := addInner_ops e.1 e.2 s op h1
          exact ⟨e, List.mem_cons_self _ _, hc, Or.inr ⟨pn, hpn, h2⟩⟩
        · obtain ⟨e', h2, h3, h4⟩ := ih _ op h1
          exact ⟨e', List.mem_cons_of_mem _ h2, h3, h4⟩
      | false =>
        rw [addBrStep_create ovnb s [] e hc hb,
          foldl_traceStep (traceStep_addPortStep e.1) e.2 _ _,
          foldl_traceStep (traceStep_addBrStep ovnb) l _ _] at hop
        rcases List.mem_append.mp hop with h1 | h1
        · rcases List.mem_append.mp h1 with h2 | h2
          · rcases List.mem_append.mp h2 with h3 | h3
            · cases h3
            · rw [List.mem_singleton.mp h3]
              exact ⟨e, List.mem_cons_self _ _, hc, Or.inl rfl⟩
          · obtain ⟨pn, hpn, h3⟩ := addInner_ops e.1 e.2 (add_br s e.1) op h2
            exact ⟨e, List.mem_cons_self _ _, hc, Or.inr ⟨pn, hpn, h3⟩⟩
        · obtain ⟨e', h2, h3, h4⟩ := ih _ op h1
          exact ⟨e', List.mem_cons_of_mem _ h2, h3, h4⟩

theorem addFold_noop (ovnb : List (String × List String))
    (l : List (String × List String)) (s : OVSState)
    (h : ∀ e ∈ l, containsKey ovnb e.1 = true →
      bridgeExists s e.1 = true ∧ ∀ pn ∈ e.2, pn ∈ list_ports s e.1) :
    ∀ t, l.foldl (addBrStep ovnb) (s, t) = (s, t) := by
  refine foldl_noop l s ?_ (traceStep_addBrStep ovnb)
  intro e he
  cases hc : containsKey ovnb e.1 with
  | false => exact addBrStep_skip ovnb s [] e hc
  | true =>
    obtain ⟨hb, hports⟩ := h e he hc
    rw [addBrStep_exists ovnb s [] e hc hb]
    exact addInner_noop e.1 e.2 s hports []

/-! # Lemmas: the publish phase -/

theorem publishPhase_bridges (mstr : String) (s : OVSState) :
    (publishPhase mstr s).1.bridges = s.bridges := by
  by_cases h : mstr = "" <;> simp [publishPhase, rootSet, rootRemove, h]

theorem publishPhase_ports (mstr : String) (s : OVSState) :
    (publishPhase mstr s).1.ports = s.ports := by
  by_cases h : mstr = "" <;> simp [publishPhase, rootSet, rootRemove, h]

theorem publishPhase_ops (mstr : String) (s : OVSState) :
    (publishPhase mstr s).2 =
      if mstr = "" then
        [Op.removeExt "ovn-bridge-mappings", Op.removeExt "ovn-cms-options"]
      else
        [Op.setExt "ovn-bridge-mappings" mstr,
         Op.setExt "ovn-cms-options" "enable-chassis-as-gw"] := by
  by_cases h : mstr = "" <;> simp [publishPhase, h]

theorem idsGet_filter_ne (l : Ids) (k : String) :
    idsGet (l.filter (fun e => e.1 != k)) k = none := by
  simp only [idsGet, Option.map_eq_none', List.find?_eq_none]
  intro e he
  have := (List.mem_filter.mp he).2
  simp only [bne_iff_ne, ne_eq] at this
  simpa using this

theorem idsGet_filter_other (l : Ids) (k k' : String) (h : k' ≠ k) :
    idsGet (l.filter (fun e => e.1 != k)) k' = idsGet l k' := by
  have hkk : ¬ k = k' := fun q => h q.symm
  induction l with
  | nil => rfl
  | cons e l ih =>
    by_cases he : e.1 = k
    · have hb : (e.1 != k) = false := by simp [he]
      rw [List.filter_cons, hb]
      simp only [Bool.false_eq_true, if_false]
      rw [ih]
      have hne : (e.1 == k') = false := by
        rw [he]
        simpa using hkk
      simp [idsGet, List.find?_cons, hne]
    · have hb : (e.1 != k) = true := by simp [he]
      rw [List.filter_cons, hb]
      simp only [if_true]
      by_cases he' : e.1 = k'
      · simp [idsGet, List.find?_cons, he']
      · have hne : (e.1 == k') = false := by simp [he']
        simp only [idsGet, List.find?_cons, hne]
        exact ih

theorem idsGet_append_right (l1 l2 : Ids) (k : String)
    (h : idsGet l1 k = none) : idsGet (l1 ++ l2) k = idsGet l2 k := by
  simp only [idsGet, Option.map_eq_none'] at h
  simp [idsGet, List.find?_append, h]

theorem idsGet_rootSet_same (s : OVSState) (k v : String) :
    idsGet (rootSet s k v).root_external_ids k = some v := by
  unfold rootSet
  rw [idsGet_append_right _ _ k (idsGet_filter_ne s.root_external_ids k)]
  simp [idsGet, List.find?_cons]

theorem idsGet_rootSet_other (s : OVSState) (k v k' : String) (h : k' ≠ k) :
    idsGet (rootSet s k v).root_external_ids k' =
      idsGet s.root_external_ids k' := by
  unfold rootSet
  have hkk : ¬ k = k' := fun q => h q.symm
  cases hf : idsGet (s.root_external_ids.filter (fun e => e.1 != k)) k' with
  | none =>
    rw [idsGet_append_right _ _ k' hf]
    rw [idsGet_filter_other s.root_external_ids k k' h] at hf
    rw [hf]
    have hne : ((k, v).1 == k') = false := by simpa using hkk
    simp [idsGet, List.find?_cons, hne]
  | some v' =>
    have h1 : idsGet ((s.root_external_ids.filter (fun e => e.1 != k)) ++
        [(k, v)]) k' = some v' := by
      rw [idsGet] at hf ⊢
      rw [Option.map_eq_some'] at hf ⊢
      obtain ⟨e, he, hev⟩ := hf
      refine ⟨e, ?_, hev⟩
      rw [List.find?_append, he]
      rfl
    rw [h1, ← hf, idsGet_filter_other s.root_external_ids k k' h]

theorem idsGet_rootRemove_same (s : OVSState) (k : String) :
    idsGet (rootRemove s k).root_external_ids k = none :=
  idsGet_filter_ne s.root_external_ids k

theorem idsGet_rootRemove_other (s : OVSState) (k k' : String) (h : k' ≠ k) :
    idsGet (rootRemove s k).root_external_ids k' =
      idsGet s.root_external_ids k' :=
  idsGet_filter_other s.root_external_ids k k' h

theorem filter_subset_eq (l : Ids) (p q : (String × String) → Bool) :
    ((l.filter p).filter q).filter p = (l.filter p).filter q := by
  rw [List.filter_eq_self]
  intro a ha
  exact (List.mem_filter.mp (List.mem_filter.mp ha).1).2

theorem filter_idem (l : Ids) (p : (String × String) → Bool) :
    (l.filter p).filter p = l.filter p := by
  rw [List.filter_eq_self]
  intro a ha
  exact (List.mem_filter.mp ha).2

theorem set_set_root (root : Ids) (k1 v1 k2 v2 : String)
    (h12 : (k1 != k2) = true) :
    ((((root.filter (fun e => e.1 != k1) ++ [(k1, v1)]).filter
        (fun e => e.1 != k2) ++ [(k2, v2)]).filter (fun e => e.1 != k1)
        ++ [(k1, v1)]).filter (fun e => e.1 != k2) ++ [(k2, v2)]) =
    ((root.filter (fun e => e.1 != k1) ++ [(k1, v1)]).filter
        (fun e => e.1 != k2) ++ [(k2, v2)]) := by
  have h21 : (k2 != k1) = true := by
    rw [bne_iff_ne] at h12 ⊢
    exact fun q => h12 q.symm
  have hk1 : (k1 != k1) = false := by simp
  have hk2 : (k2 != k2) = false := by simp
  simp only [List.filter_append, List.filter_singleton, List.filter_nil,
    h12, h21, hk1, hk2, cond_true, cond_false, filter_subset_eq, filter_idem,
    List.append_nil, List.nil_append, List.append_assoc]

theorem remove_remove_root (root : Ids) (k1 k2 : String) :
    ((((root.filter (fun e => e.1 != k1)).filter (fun e => e.1 != k2)).filter
        (fun e => e.1 != k1)).filter (fun e => e.1 != k2)) =
      (root.filter (fun e => e.1 != k1)).filter (fun e => e.1 != k2) := by
  rw [filter_subset_eq root (fun e => e.1 != k1) (fun e => e.1 != k2)]
  exact filter_idem (root.filter (fun e => e.1 != k1)) (fun e => e.1 != k2)

theorem publishPhase_idem (mstr : String) (s : OVSState) :
    (publishPhase mstr (publishPhase mstr s).1).1 = (publishPhase mstr s).1 := by
  by_cases h : mstr = ""
  · simp only [publishPhase, h, if_pos, if_true]
    cases s with
    | mk bs ps root =>
      simp only [rootRemove]
      congr 1
      exact remove_remove_root root _ _
  · simp only [publishPhase, h, if_neg, if_false]
    cases s with
    | mk bs ps root =>
      simp only [rootSet]
      congr 1
      exact set_set_root root _ mstr _ _ (by decide)

/-! # Lemmas: a converged state is a fixed point of the two diff phases -/

theorem removePhase_noop (ifb : List (String × List String)) (s : OVSState)
    (h1 : Conv1 ifb s) (h2 : Conv2 ifb s) :
    removePhase ifb s = (s, []) := by
  refine foldl_noop (managedBridges s) s ?_ (traceStep_removeBrStep ifb) []
  intro b hb
  obtain ⟨hbb, htag⟩ := (mem_managedBridges s b).mp hb
  obtain ⟨ifs, hifs⟩ := (containsKey_iff_exists ifb b.name).mp (h1 b hbb htag)
  rw [removeBrStep_some ifb s [] b ifs hifs]
  refine foldl_noop (taggedPorts s b.name) s ?_
    (traceStep_removePortStep b.name ifs) []
  intro p hp
  obtain ⟨hps, hpt⟩ := (mem_taggedPorts s b.name p).mp hp
  have hmem : p.name ∈ ifs :=
    h2 p hps b.name hpt ⟨b, hbb, rfl, htag⟩ ifs hifs
  simp [removePortStep, hmem]

theorem addPhase_noop (ifb ovnb : List (String × List String)) (s : OVSState)
    (h : Conv3 ifb ovnb s) : addPhase ifb ovnb s = (s, []) := by
  unfold addPhase
  refine addFold_noop ovnb ifb s ?_ []
  intro e he hc
  exact h e he hc

theorem Conv1_transport (ifb : List (String × List String)) (s s' : OVSState)
    (hb : s'.bridges = s.bridges) (h : Conv1 ifb s) : Conv1 ifb s' := by
  intro b hbb
  rw [hb] at hbb
  exact h b hbb

theorem Conv2_transport (ifb : List (String × List String)) (s s' : OVSState)
    (hb : s'.bridges = s.bridges) (hp : s'.ports = s.ports)
    (h : Conv2 ifb s) : Conv2 ifb s' := by
  intro p hpp n htag hex ifs hifs
  rw [hp] at hpp
  rw [hb] at hex
  exact h p hpp n htag hex ifs hifs

theorem Conv3_transport (ifb ovnb : List (String × List String))
    (s s' : OVSState) (hb : s'.bridges = s.bridges) (hp : s'.ports = s.ports)
    (h : Conv3 ifb ovnb s) : Conv3 ifb ovnb s' := by
  intro e he hc
  obtain ⟨h1, h2⟩ := h e he hc
  constructor
  · rw [show bridgeExists s' e.1 = bridgeExists s e.1 by
      unfold bridgeExists; rw [hb]]
    exact h1
  · intro pn hpn
    rw [show list_ports s' e.1 = list_ports s e.1 by
      unfold list_ports; rw [hp]]
    exact h2 pn hpn

/-! # Lemmas: name uniqueness is preserved by a pass -/

theorem outerFold_bridges_sublist (ifb : List (String × List String))
    (l : List Bridge) : ∀ s t,
    List.Sublist (l.foldl (removeBrStep ifb) (s, t)).1.bridges s.bridges := by
  induction l with
  | nil => intro s t; exact List.Sublist.refl _
  | cons x l ih =>
    intro s t
    rw [List.foldl_cons]
    cases hx : lookupGrouped ifb x.name with
    | none =>
      rw [removeBrStep_none ifb s t x hx]
      exact (ih _ _).trans (List.filter_sublist _)
    | some ifs =>
      rw [removeBrStep_some ifb s t x ifs hx]
      have g1 := (innerFold_state x.name ifs (taggedPorts s x.name) s t).1
      have := ih ((taggedPorts s x.name).foldl
        (removePortStep x.name ifs) (s, t)).1
        ((taggedPorts s x.name).foldl (removePortStep x.name ifs) (s, t)).2
      rw [g1] at this
      simpa using this

theorem addFold_names_nodup (ovnb : List (String × List String))
    (l : List (String × List String)) : ∀ s t,
    (s.bridges.map Bridge.name).Nodup →
    ((l.foldl (addBrStep ovnb) (s, t)).1.bridges.map Bridge.name).Nodup := by
  induction l with
  | nil => intro s t h; exact h
  | cons e l ih =>
    intro s t h
    rw [List.foldl_cons]
    cases hc : containsKey ovnb e.1 with
    | false =>
      rw [addBrStep_skip ovnb s t e hc]
      exact ih s t h
    | true =>
      cases hb : bridgeExists s e.1 with
      | true =>
        rw [addBrStep_exists ovnb s t e hc hb]
        refine ih _ _ ?_
        rw [(addInner_state e.1 e.2 s t).1]
        exact h
      | false =>
        rw [addBrStep_create ovnb s t e hc hb]
        refine ih _ _ ?_
        rw [(addInner_state e.1 e.2 (add_br s e.1) (t ++ [Op.addBr e.1])).1,
          add_br_bridges, List.map_append]
        rw [List.nodup_append]
        refine ⟨h, by simp, ?_⟩
        intro n hn hn2
        simp only [List.map_cons, List.map_nil, List.mem_singleton] at hn2
        subst hn2
        obtain ⟨b, hbb, hbn⟩ := List.mem_map.mp hn
        have : bridgeExists s e.1 = true :=
          (bridgeExists_iff s e.1).mpr ⟨b, hbb, hbn⟩
        rw [hb] at this
        cases this

theorem run_names_nodup (ifb ovnb : List (String × List String))
    (mstr : String) (s0 : OVSState)
    (hnd : (s0.bridges.map Bridge.name).Nodup) :
    (((publishPhase mstr (addPhase ifb ovnb
        (removePhase ifb s0).1).1).1.bridges.map Bridge.name).Nodup) := by
  rw [publishPhase_bridges]
  refine addFold_names_nodup ovnb ifb _ _ ?_
  exact hnd.sublist ((outerFold_bridges_sublist ifb (managedBridges s0)
    s0 []).map Bridge.name)

/-! # Lemmas: unfolding a successful run -/

theorem configure_bridges_eq (resolve : List String → List String)
    (ifbm obm : String) (s : OVSState)
    (ifb0 : List (String × List String)) (mstr : String)
    (ovnb : List (String × List String))
    (hp : parseIfbm ifbm = some ifb0)
    (hm : buildOvnMap (resolveBridges resolve ifb0) obm = some (mstr, ovnb)) :
    configure_bridges resolve ifbm obm s =
      some ((publishPhase mstr (addPhase (resolveBridges resolve ifb0) ovnb
          (removePhase (resolveBridges resolve ifb0) s).1).1).1,
        (removePhase (resolveBridges resolve ifb0) s).2 ++
        (addPhase (resolveBridges resolve ifb0) ovnb
          (removePhase (resolveBridges resolve ifb0) s).1).2 ++
        (publishPhase mstr (addPhase (resolveBridges resolve ifb0) ovnb
          (removePhase (resolveBridges resolve ifb0) s).1).1).2) := by
  simp [configure_bridges, hp, hm]

theorem configure_bridges_inv (resolve : List String → List String)
    (ifbm obm : String) (s : OVSState) (r : OVSState × List Op)
    (h : configure_bridges resolve ifbm obm s = some r) :
    ∃ ifb0 mstr ovnb, parseIfbm ifbm = some ifb0 ∧
      buildOvnMap (resolveBridges resolve ifb0) obm = some (mstr, ovnb) := by
  cases hp : parseIfbm ifbm with
  | none => simp [configure_bridges, hp] at h
  | some ifb0 =>
    cases hm : buildOvnMap (resolveBridges resolve ifb0) obm with
    | none => simp [configure_bridges, hp, hm] at h
    | some pr => exact ⟨ifb0, pr.1, pr.2, rfl, by rw [hm]⟩

/-! # Lemmas: the first pass establishes convergence -/

theorem fresh_portTag (pn br : String) :
    portTag ⟨pn, br, [(tagKey, br)]⟩ = some br := by
  simp [portTag, idsGet, List.find?_cons]

theorem run_establishes (ifb ovnb : List (String × List String))
    (s0 : OVSState) (hnd : (ifb.map Prod.fst).Nodup)
    (hwf1 : ∀ p ∈ s0.ports, ∀ n, portTag p = some n → p.bridge = n)
    (hwf2 : ∀ p ∈ s0.ports, bridgeExists s0 p.bridge = true) :
    Conv1 ifb (addPhase ifb ovnb (removePhase ifb s0).1).1 ∧
    Conv2 ifb (addPhase ifb ovnb (removePhase ifb s0).1).1 ∧
    Conv3 ifb ovnb (addPhase ifb ovnb (removePhase ifb s0).1).1 := by
  obtain ⟨A1, A2, A3, A4, A5⟩ :=
    addFold_state ovnb ifb (removePhase ifb s0).1 []
  obtain ⟨R1, R2, R3⟩ := removePhase_subset ifb s0
  refine ⟨?_, ?_, ?_⟩
  · intro b hb htag
    rcases A2 b hb with h' | ⟨_, ⟨e, he, hn, _⟩, _⟩
    · exact removePhase_managed_declared ifb s0 b h' htag
    · rw [← hn]
      exact containsKey_of_mem ifb e he
  · intro p hp n htag hex ifs hifs
    rcases A4 p hp with hold | ⟨e, he, hc, pn, hpn, hpe⟩
    · obtain ⟨B, hB, hBn, hBtag⟩ := hex
      rcases A2 B hB with hBold | ⟨_, ⟨e, he, hn, _⟩, hBex⟩
      · have hgood := removePhase_good ifb s0 B hBold hBtag
        subst hBn
        exact hgood p hold htag ifs hifs
      · exfalso
        have hp0 : p ∈ s0.ports := R2 p hold
        have hbr : p.bridge = n := hwf1 p hp0 n htag
        have hex0 : bridgeExists s0 p.bridge = true := hwf2 p hp0
        have hck : containsKey ifb B.name = true := by
          rw [← hn]
          exact containsKey_of_mem ifb e he
        have hkept : bridgeExists (removePhase ifb s0).1 B.name = true := by
          refine removePhase_bridgeExists_kept ifb s0 B.name hck ?_
          rw [hBn, ← hbr]
          exact hex0
        rw [hBex] at hkept
        cases hkept
    · have htag' : portTag p = some e.1 := by
        rw [hpe]
        exact fresh_portTag pn e.1
      rw [htag'] at htag
      injection htag with htag
      subst htag
      have hlk : lookupGrouped ifb e.1 = some e.2 :=
        lookupGrouped_of_mem_nodup ifb e he hnd
      rw [hlk] at hifs
      injection hifs with hifs
      subst hifs
      rw [hpe]
      exact hpn
  · intro e he hc
    exact addFold_estab ovnb ifb (removePhase ifb s0).1 [] e he hc

theorem second_run_noop (resolve : List String → List String)
    (ifbm obm : String) (s0 s1 s2 : OVSState) (t1 t2 : List Op)
    (hwf : WFState s0)
    (h1 : configure_bridges resolve ifbm obm s0 = some (s1, t1))
    (h2 : configure_bridges resolve ifbm obm s1 = some (s2, t2)) :
    s2 = s1 ∧ ∀ op ∈ t2, Op.isPublish op = true := by
  obtain ⟨ifb0, mstr, ovnb, hp, hm⟩ :=
    configure_bridges_inv resolve ifbm obm s0 (s1, t1) h1
  rw [configure_bridges_eq resolve ifbm obm s0 ifb0 mstr ovnb hp hm] at h1
  rw [configure_bridges_eq resolve ifbm obm s1 ifb0 mstr ovnb hp hm] at h2
  injection h1 with h1
  injection h2 with h2
  have hs1 : s1 = (publishPhase mstr (addPhase (resolveBridges resolve ifb0)
      ovnb (removePhase (resolveBridges resolve ifb0) s0).1).1).1 :=
    (congrArg Prod.fst h1).symm
  have hnd : ((resolveBridges resolve ifb0).map Prod.fst).Nodup :=
    resolveBridges_keysNodup resolve ifb0 (parseIfbm_keysNodup ifbm ifb0 hp)
  obtain ⟨hc1, hc2, hc3⟩ := run_establishes (resolveBridges resolve ifb0)
    ovnb s0 hnd hwf.1 hwf.2
  have hb1 : s1.bridges = (addPhase (resolveBridges resolve ifb0) ovnb
      (removePhase (resolveBridges resolve ifb0) s0).1).1.bridges := by
    rw [hs1, publishPhase_bridges]
  have hp1 : s1.ports = (addPhase (resolveBridges resolve ifb0) ovnb
      (removePhase (resolveBridges resolve ifb0) s0).1).1.ports := by
    rw [hs1, publishPhase_ports]
  have hc1' := Conv1_transport _ _ s1 hb1 hc1
  have hc2' := Conv2_transport _ _ s1 hb1 hp1 hc2
  have hc3' := Conv3_transport _ _ _ s1 hb1 hp1 hc3
  have hrem : removePhase (resolveBridges resolve ifb0) s1 = (s1, []) :=
    removePhase_noop _ s1 hc1' hc2'
  have hadd : addPhase (resolveBridges resolve ifb0) ovnb s1 = (s1, []) :=
    addPhase_noop _ ovnb s1 hc3'
  rw [hrem] at h2
  simp only at h2
  rw [hadd] at h2
  simp only at h2
  constructor
  · have hs2 : s2 = (publishPhase mstr s1).1 := (congrArg Prod.fst h2).symm
    rw [hs2, hs1]
    exact publishPhase_idem mstr _
  · have ht2 : t2 = [] ++ [] ++ (publishPhase mstr s1).2 :=
      (congrArg Prod.snd h2).symm
    rw [ht2]
    intro op hop
    simp only [List.nil_append] at hop
    rw [publishPhase_ops] at hop
    by_cases he : mstr = ""
    · rw [if_pos he] at hop
      rcases List.mem_cons.mp hop with rfl | hop'
      · rfl
      · rw [List.mem_singleton.mp hop']
        rfl
    · rw [if_neg he] at hop
      rcases List.mem_cons.mp hop with rfl | hop'
      · rfl
      · rw [List.mem_singleton.mp hop']
        rfl

theorem publishPhase_state_set (mstr : String) (s : OVSState)
    (h : mstr ≠ "") :
    (publishPhase mstr s).1 =
      rootSet (rootSet s "ovn-bridge-mappings" mstr)
        "ovn-cms-options" "enable-chassis-as-gw" := by
  simp [publishPhase, h]

theorem publishPhase_state_remove (s : OVSState) :
    (publishPhase "" s).1 =
      rootRemove (rootRemove s "ovn-bridge-mappings") "ovn-cms-options" := by
  simp [publishPhase]

theorem run_ops_cases (resolve : List String → List String)
    (ifbm obm : String) (s0 s1 : OVSState) (t : List Op)
    (ifb0 : List (String × List String)) (mstr : String)
    (ovnb : List (String × List String))
    (hp : parseIfbm ifbm = some ifb0)
    (hm : buildOvnMap (resolveBridges resolve ifb0) obm = some (mstr, ovnb))
    (hr : configure_bridges resolve ifbm obm s0 = some (s1, t))
    (op : Op) (hop : op ∈ t) :
    op ∈ (removePhase (resolveBridges resolve ifb0) s0).2 ∨
    op ∈ (addPhase (resolveBridges resolve ifb0) ovnb
      (removePhase (resolveBridges resolve ifb0) s0).1).2 ∨
    op ∈ (publishPhase mstr (addPhase (resolveBridges resolve ifb0) ovnb
      (removePhase (resolveBridges resolve ifb0) s0).1).1).2 := by
  rw [configure_bridges_eq resolve ifbm obm s0 ifb0 mstr ovnb hp hm] at hr
  injection hr with hr
  have ht := (congrArg Prod.snd hr).symm
  simp only at ht
  rw [ht] at hop
  rcases List.mem_append.mp hop with h1 | h1
  · rcases List.mem_append.mp h1 with h2 | h2
    · exact Or.inl h2
    · exact Or.inr (Or.inl h2)
  · exact Or.inr (Or.inr h1)

theorem run_final_state (resolve : List String → List String)
    (ifbm obm : String) (s0 s1 : OVSState) (t : List Op)
    (ifb0 : List (String × List String)) (mstr : String)
    (ovnb : List (String × List String))
    (hp : parseIfbm ifbm = some ifb0)
    (hm : buildOvnMap (resolveBridges resolve ifb0) obm = some (mstr, ovnb))
    (hr : configure_bridges resolve ifbm obm s0 = some (s1, t)) :
    s1 = (publishPhase mstr (addPhase (resolveBridges resolve ifb0) ovnb
      (removePhase (resolveBridges resolve ifb0) s0).1).1).1 := by
  rw [configure_bridges_eq resolve ifbm obm s0 ifb0 mstr ovnb hp hm] at hr
  injection hr with hr
  exact (congrArg Prod.fst hr).symm

theorem run_trace_shape (resolve : List String → List String)
    (ifbm obm : String) (s0 s1 : OVSState) (t : List Op)
    (ifb0 : List (String × List String)) (mstr : String)
    (ovnb : List (String × List String))
    (hp : parseIfbm ifbm = some ifb0)
    (hm : buildOvnMap (resolveBridges resolve ifb0) obm = some (mstr, ovnb))
    (hr : configure_bridges resolve ifbm obm s0 = some (s1, t)) :
    t = (removePhase (resolveBridges resolve ifb0) s0).2 ++
        (addPhase (resolveBridges resolve ifb0) ovnb
          (removePhase (resolveBridges resolve ifb0) s0).1).2 ++
        (publishPhase mstr (addPhase (resolveBridges resolve ifb0) ovnb
          (removePhase (resolveBridges resolve ifb0) s0).1).1).2 := by
  rw [configure_bridges_eq resolve ifbm obm s0 ifb0 mstr ovnb hp hm] at hr
  injection hr with hr
  exact (congrArg Prod.snd hr).symm

theorem containsKey_false_lookup (m : List (String × List String))
    (k : String) (h : containsKey m k = false) :
    lookupGrouped m k = none := by
  cases hl : lookupGrouped m k with
  | none => rfl
  | some vs =>
    rw [show containsKey m k = true by simp [containsKey, hl]] at h
    cases h

theorem publishPhase_ops_shape (mstr : String) (s : OVSState) (op : Op)
    (hop : op ∈ (publishPhase mstr s).2) :
    (∃ k v, op = Op.setExt k v) ∨ (∃ k, op = Op.removeExt k) := by
  rw [publishPhase_ops] at hop
  by_cases h : mstr = ""
  · rw [if_pos h] at hop
    rcases List.mem_cons.mp hop with rfl | hop'
    · exact Or.inr ⟨_, rfl⟩
    · rw [List.mem_singleton.mp hop']
      exact Or.inr ⟨_, rfl⟩
  · rw [if_neg h] at hop
    rcases List.mem_cons.mp hop with rfl | hop'
    · exact Or.inl ⟨_, _, rfl⟩
    · rw [List.mem_singleton.mp hop']
      exact Or.inl ⟨_, _, rfl⟩

/-! # Claim theorems -/

/-- C8: a token with no colon separator in either configuration string is a
fatal parse error — the reconciliation pass aborts (returns no state and no
trace, so no step after the parse is applied) instead of skipping the
malformed token. -/
theorem C8_malformed_token_fatal (resolve : List String → List String)
    (ifbm obm : String) (s : OVSState)
    (hbad : (∃ tok ∈ tokens ifbm, splitFirstColon tok = none) ∨
            (∃ tok ∈ tokens obm, splitFirstColon tok = none)) :
    configure_bridges resolve ifbm obm s = none := by
  rcases hbad with ⟨tok, htok, hsp⟩ | ⟨tok, htok, hsp⟩
  · simp [configure_bridges, parseIfbm_none ifbm tok htok hsp]
  · cases hp : parseIfbm ifbm with
    | none => simp [configure_bridges, hp]
    | some ifb0 =>
      simp [configure_bridges, hp,
        buildOvnMap_none (resolveBridges resolve ifb0) obm tok htok hsp]

/-- Witness for C8 at the concrete malformed input `bridgewithoutcolon`. -/
theorem C8_witness :
    ((∃ tok ∈ tokens "bridgewithoutcolon", splitFirstColon tok = none) ∨
     (∃ tok ∈ tokens "", splitFirstColon tok = none)) ∧
    configure_bridges (fun l => l) "bridgewithoutcolon" "" ⟨[], [], []⟩ =
      none :=
  ⟨Or.inl ⟨"bridgewithoutcolon", by decide, by decide⟩,
   C8_malformed_token_fatal (fun l => l) "bridgewithoutcolon" "" ⟨[], [], []⟩
     (Or.inl ⟨"bridgewithoutcolon", by decide, by decide⟩)⟩

/-- C10: token parsing splits on the first colon only: for a colon-free
prefix `a`, the token `a ++ ":" ++ b` parses as the pair `(a, b)` with the
entire remainder `b` kept intact (so a MAC address reference containing
colons survives as a single ref), and the bridge-interface parser stores
it that way.  The same `splitFirstColon` is the one applied to
`network:bridge` tokens, so the bridge name is likewise the entire
remainder after the first colon. -/
theorem C10_split_first_colon (a b : String)
    (h1 : ':' ∉ a.data)
    (h2 : ∀ c ∈ a.data, c.isWhitespace = false)
    (h3 : ∀ c ∈ b.data, c.isWhitespace = false) :
    splitFirstColon (a ++ ":" ++ b) = some (a, b) ∧
    parseIfbm (a ++ ":" ++ b) = some [(a, [b])] := by
  refine ⟨splitFirstColon_append a b h1, ?_⟩
  have hd : (a ++ ":" ++ b).data = a.data ++ ':' :: b.data := by
    show (a.data ++ [':']) ++ b.data = _
    simp
  have htk : tokens (a ++ ":" ++ b) = [a ++ ":" ++ b] := by
    refine tokens_no_ws _ ?_ ?_
    · rw [hd]; simp
    · rw [hd]
      intro c hc
      rcases List.mem_append.mp hc with h | h
      · exact h2 c h
      · rcases List.mem_cons.mp h with rfl | h'
        · decide
        · exact h3 c h'
  unfold parseIfbm
  rw [htk]
  simp [List.foldlM_cons, splitFirstColon_append a b h1, insertGrouped]

/-- Witness for C10 at a MAC-address reference containing five colons. -/
theorem C10_witness :
    (':' ∉ ("br-ex" : String).data) ∧
    (∀ c ∈ ("br-ex" : String).data, c.isWhitespace = false) ∧
    (∀ c ∈ ("00:11:22:33:44:55" : String).data, c.isWhitespace = false) ∧
    (splitFirstColon ("br-ex" ++ ":" ++ "00:11:22:33:44:55") =
       some ("br-ex", "00:11:22:33:44:55") ∧
     parseIfbm ("br-ex" ++ ":" ++ "00:11:22:33:44:55") =
       some [("br-ex", ["00:11:22:33:44:55"])]) :=
  ⟨by decide, by decide, by decide,
   C10_split_first_colon "br-ex" "00:11:22:33:44:55"
     (by decide) (by decide) (by decide)⟩

/-- C5: the mapping string is built exclusively from the kept pairs, every
kept pair's bridge is present in the resolved interface map, and a pair
whose bridge is absent from the resolved map is never among the kept pairs
(so it contributes nothing to the output mapping string). -/
theorem C5_dangling_network_dropped (ifb : List (String × List String))
    (obm mstr : String) (ovnb : List (String × List String))
    (hm : buildOvnMap ifb obm = some (mstr, ovnb)) :
    mstr = commaJoin ((keptPairs ifb (sortedTokens obm)).map renderPair) ∧
    (∀ pr ∈ keptPairs ifb (sortedTokens obm), containsKey ifb pr.2 = true) ∧
    (∀ pr : String × String, containsKey ifb pr.2 = false →
       pr ∉ keptPairs ifb (sortedTokens obm)) := by
  obtain ⟨h1, _⟩ := buildOvnMap_chars ifb obm mstr ovnb hm
  refine ⟨h1, fun pr hpr => (keptPairs_mem ifb _ pr hpr).1, ?_⟩
  intro pr hck hmem
  rw [(keptPairs_mem ifb _ pr hmem).1] at hck
  cases hck

/-- Witness for C5: `physnet2:br-ex` is declared but `br-ex` is not in the
resolved map, so only `physnet1:br-data` is kept. -/
theorem C5_witness :
    buildOvnMap [("br-data", ["eth0"])] "physnet1:br-data physnet2:br-ex" =
      some ("physnet1:br-data", [("br-data", ["physnet1"])]) ∧
    ("physnet1:br-data" : String) =
      commaJoin ((keptPairs [("br-data", ["eth0"])]
        (sortedTokens "physnet1:br-data physnet2:br-ex")).map renderPair) ∧
    (∀ pr ∈ keptPairs [("br-data", ["eth0"])]
        (sortedTokens "physnet1:br-data physnet2:br-ex"),
       containsKey [("br-data", ["eth0"])] pr.2 = true) ∧
    (∀ pr : String × String,
       containsKey [("br-data", ["eth0"])] pr.2 = false →
       pr ∉ keptPairs [("br-data", ["eth0"])]
         (sortedTokens "physnet1:br-data physnet2:br-ex")) :=
  ⟨by decide,
   C5_dangling_network_dropped [("br-data", ["eth0"])]
     "physnet1:br-data physnet2:br-ex" "physnet1:br-data"
     [("br-data", ["physnet1"])] (by decide)⟩

/-- C6: the output mapping string is the dense comma-join of the kept
`network:bridge` pairs, each rendered pair is one of the original raw
tokens, and they appear in ascending lexicographic order of that raw token
text. -/
theorem C6_sorted_comma_join (ifb : List (String × List String))
    (obm mstr : String) (ovnb : List (String × List String))
    (hm : buildOvnMap ifb obm = some (mstr, ovnb)) :
    mstr = commaJoin ((keptPairs ifb (sortedTokens obm)).map renderPair) ∧
    ((keptPairs ifb (sortedTokens obm)).map renderPair).Sorted
      (fun a b => lexLe a b = true) ∧
    (∀ r ∈ (keptPairs ifb (sortedTokens obm)).map renderPair,
       r ∈ tokens obm) := by
  obtain ⟨h1, _⟩ := buildOvnMap_chars ifb obm mstr ovnb hm
  exact ⟨h1, keptRenders_sorted ifb obm,
    fun r hr => keptRenders_mem_tokens ifb obm r hr⟩

/-- Witness for C6: two declared pairs serialize sorted by raw token. -/
theorem C6_witness :
    buildOvnMap [("br-data", ["eth0"])]
        "physnet2:br-data physnet1:br-data" =
      some ("physnet1:br-data,physnet2:br-data",
            [("br-data", ["physnet1", "physnet2"])]) ∧
    (("physnet1:br-data,physnet2:br-data" : String) =
       commaJoin ((keptPairs [("br-data", ["eth0"])]
         (sortedTokens "physnet2:br-data physnet1:br-data")).map
           renderPair) ∧
     ((keptPairs [("br-data", ["eth0"])]
        (sortedTokens "physnet2:br-data physnet1:br-data")).map
          renderPair).Sorted (fun a b => lexLe a b = true) ∧
     (∀ r ∈ (keptPairs [("br-data", ["eth0"])]
        (sortedTokens "physnet2:br-data physnet1:br-data")).map renderPair,
        r ∈ tokens "physnet2:br-data physnet1:br-data")) :=
  ⟨by decide,
   C6_sorted_comma_join [("br-data", ["eth0"])]
     "physnet2:br-data physnet1:br-data"
     "physnet1:br-data,physnet2:br-data"
     [("br-data", ["physnet1", "physnet2"])] (by decide)⟩

/-- C3: when the computed network-mapping string is non-empty the
reconciler sets both `ovn-bridge-mappings` (to that string) and
`ovn-cms-options` (to the literal `enable-chassis-as-gw`) on the root row;
when it is empty, it removes both keys entirely (neither is set to the
empty string), and the corresponding set/remove calls end the trace. -/
theorem C3_publish_or_clear (resolve : List String → List String)
    (ifbm obm : String) (s0 s1 : OVSState) (t : List Op)
    (ifb0 : List (String × List String)) (mstr : String)
    (ovnb : List (String × List String))
    (hp : parseIfbm ifbm = some ifb0)
    (hm : buildOvnMap (resolveBridges resolve ifb0) obm = some (mstr, ovnb))
    (hr : configure_bridges resolve ifbm obm s0 = some (s1, t)) :
    (mstr ≠ "" →
       idsGet s1.root_external_ids "ovn-bridge-mappings" = some mstr ∧
       idsGet s1.root_external_ids "ovn-cms-options" =
         some "enable-chassis-as-gw" ∧
       ∃ t0, t = t0 ++ [Op.setExt "ovn-bridge-mappings" mstr,
                        Op.setExt "ovn-cms-options" "enable-chassis-as-gw"]) ∧
    (mstr = "" →
       idsGet s1.root_external_ids "ovn-bridge-mappings" = none ∧
       idsGet s1.root_external_ids "ovn-cms-options" = none ∧
       ∃ t0, t = t0 ++ [Op.removeExt "ovn-bridge-mappings",
                        Op.removeExt "ovn-cms-options"]) := by
  have hs := run_final_state resolve ifbm obm s0 s1 t ifb0 mstr ovnb hp hm hr
  have ht := run_trace_shape resolve ifbm obm s0 s1 t ifb0 mstr ovnb hp hm hr
  constructor
  · intro hne
    rw [hs, publishPhase_state_set mstr _ hne]
    refine ⟨?_, ?_, ?_⟩
    · rw [idsGet_rootSet_other _ "ovn-cms-options" "enable-chassis-as-gw"
        "ovn-bridge-mappings" (by decide)]
      exact idsGet_rootSet_same _ "ovn-bridge-mappings" mstr
    · exact idsGet_rootSet_same _ "ovn-cms-options" "enable-chassis-as-gw"
    · exact ⟨(removePhase (resolveBridges resolve ifb0) s0).2 ++
        (addPhase (resolveBridges resolve ifb0) ovnb
          (removePhase (resolveBridges resolve ifb0) s0).1).2,
        by rw [ht, publishPhase_ops, if_neg hne]⟩
  · intro he
    subst he
    rw [hs, publishPhase_state_remove]
    refine ⟨?_, ?_, ?_⟩
    · rw [idsGet_rootRemove_other _ "ovn-cms-options" "ovn-bridge-mappings"
        (by decide)]
      exact idsGet_rootRemove_same _ "ovn-bridge-mappings"
    · exact idsGet_rootRemove_same _ "ovn-cms-options"
    · exact ⟨(removePhase (resolveBridges resolve ifb0) s0).2 ++
        (addPhase (resolveBridges resolve ifb0) ovnb
          (removePhase (resolveBridges resolve ifb0) s0).1).2,
        by rw [ht, publishPhase_ops, if_pos rfl]⟩

/-- Witness for C3 at a converged non-empty mapping. -/
theorem C3_witness :
    parseIfbm "br-data:eth0" = some [("br-data", ["eth0"])] ∧
    buildOvnMap (resolveBridges (fun l => l) [("br-data", ["eth0"])])
        "physnet1:br-data" =
      some ("physnet1:br-data", [("br-data", ["physnet1"])]) ∧
    ((("physnet1:br-data" : String) ≠ "" →
       idsGet [("ovn-bridge-mappings", "physnet1:br-data"),
               ("ovn-cms-options", "enable-chassis-as-gw")]
         "ovn-bridge-mappings" = some "physnet1:br-data" ∧
       idsGet [("ovn-bridge-mappings", "physnet1:br-data"),
               ("ovn-cms-options", "enable-chassis-as-gw")]
         "ovn-cms-options" = some "enable-chassis-as-gw" ∧
       ∃ t0, [Op.addBr "br-data", Op.addPort "br-data" "eth0",
              Op.linkUp "eth0",
              Op.setExt "ovn-bridge-mappings" "physnet1:br-data",
              Op.setExt "ovn-cms-options" "enable-chassis-as-gw"] =
         t0 ++ [Op.setExt "ovn-bridge-mappings" "physnet1:br-data",
                Op.setExt "ovn-cms-options" "enable-chassis-as-gw"]) ∧
     (("physnet1:br-data" : String) = "" →
       idsGet [("ovn-bridge-mappings", "physnet1:br-data"),
               ("ovn-cms-options", "enable-chassis-as-gw")]
         "ovn-bridge-mappings" = none ∧
       idsGet [("ovn-bridge-mappings", "physnet1:br-data"),
               ("ovn-cms-options", "enable-chassis-as-gw")]
         "ovn-cms-options" = none ∧
       ∃ t0, [Op.addBr "br-data", Op.addPort "br-data" "eth0",
              Op.linkUp "eth0",
              Op.setExt "ovn-bridge-mappings" "physnet1:br-data",
              Op.setExt "ovn-cms-options" "enable-chassis-as-gw"] =
         t0 ++ [Op.removeExt "ovn-bridge-mappings",
                Op.removeExt "ovn-cms-options"])) :=
  ⟨by decide, by decide,
   C3_publish_or_clear (fun l => l) "br-data:eth0" "physnet1:br-data"
     ⟨[], [], []⟩
     ⟨[⟨"br-data", [("charm-ovn-chassis", "managed")]⟩],
      [⟨"eth0", "br-data", [("charm-ovn-chassis", "br-data")]⟩],
      [("ovn-bridge-mappings", "physnet1:br-data"),
       ("ovn-cms-options", "enable-chassis-as-gw")]⟩
     [Op.addBr "br-data", Op.addPort "br-data" "eth0", Op.linkUp "eth0",
      Op.setExt "ovn-bridge-mappings" "physnet1:br-data",
      Op.setExt "ovn-cms-options" "enable-chassis-as-gw"]
     [("br-data", ["eth0"])] "physnet1:br-data" [("br-data", ["physnet1"])]
     (by decide) (by decide) (by decide)⟩

/-- C4: a bridge declared with a non-empty resolved interface list but
named by no pair of the network-bridge mapping is never created and never
has a port attached: neither an add-bridge nor an add-port call for it
appears in the trace. -/
theorem C4_unmapped_never_created (resolve : List String → List String)
    (ifbm obm : String) (s0 s1 : OVSState) (t : List Op)
    (ifb0 : List (String × List String)) (mstr : String)
    (ovnb : List (String × List String)) (br : String)
    (hp : parseIfbm ifbm = some ifb0)
    (hm : buildOvnMap (resolveBridges resolve ifb0) obm = some (mstr, ovnb))
    (hr : configure_bridges resolve ifbm obm s0 = some (s1, t))
    (hbr : containsKey (resolveBridges resolve ifb0) br = true)
    (hno : ∀ tok ∈ tokens obm, ∀ pr : String × String,
       splitFirstColon tok = some pr → pr.2 ≠ br) :
    Op.addBr br ∉ t ∧ ∀ pn : String, Op.addPort br pn ∉ t := by
  have hovnb : containsKey ovnb br = false := by
    cases hcv : containsKey ovnb br with
    | false => rfl
    | true =>
      obtain ⟨pr, hpr, hpr2⟩ :=
        (buildOvnMap_chars _ obm mstr ovnb hm).2 br hcv
      obtain ⟨_, tok, htok, hsp⟩ := keptPairs_mem _ _ pr hpr
      exact absurd hpr2 (hno tok ((mem_sortTokens tok _).mp htok) pr hsp)
  constructor
  · intro hmem
    rcases run_ops_cases resolve ifbm obm s0 s1 t ifb0 mstr ovnb hp hm hr
      (Op.addBr br) hmem with h1 | h2 | h3
    · rcases removePhase_ops _ s0 _ h1 with
        ⟨x, _, _, _, he⟩ | ⟨x, _, _, ifs, _, q, _, _, _, he⟩
      · exact Op.noConfusion he
      · exact Op.noConfusion he
    · obtain ⟨e, he, hce, hsh⟩ := addFold_ops ovnb _ _ _ h2
      rcases hsh with he' | ⟨pn, _, he' | he'⟩
      · injection he' with hbe
        rw [hbe] at hovnb
        rw [hce] at hovnb
        cases hovnb
      · exact Op.noConfusion he'
      · exact Op.noConfusion he'
    · rcases publishPhase_ops_shape mstr _ _ h3 with ⟨k, v, he⟩ | ⟨k, he⟩
      · exact Op.noConfusion he
      · exact Op.noConfusion he
  · intro pn hmem
    rcases run_ops_cases resolve ifbm obm s0 s1 t ifb0 mstr ovnb hp hm hr
      (Op.addPort br pn) hmem with h1 | h2 | h3
    · rcases removePhase_ops _ s0 _ h1 with
        ⟨x, _, _, _, he⟩ | ⟨x, _, _, ifs, _, q, _, _, _, he⟩
      · exact Op.noConfusion he
      · exact Op.noConfusion he
    · obtain ⟨e, he, hce, hsh⟩ := addFold_ops ovnb _ _ _ h2
      rcases hsh with he' | ⟨pn', _, he' | he'⟩
      · exact Op.noConfusion he'
      · injection he' with hbe hpe
        rw [hbe] at hovnb
        rw [hce] at hovnb
        cases hovnb
      · exact Op.noConfusion he'
    · rcases publishPhase_ops_shape mstr _ _ h3 with ⟨k, v, he⟩ | ⟨k, he⟩
      · exact Op.noConfusion he
      · exact Op.noConfusion he

/-- Witness for C4: `br-ex` has a resolved interface but no mapped
network, and the run issues no create or attach for it. -/
theorem C4_witness :
    parseIfbm "br-data:eth0 br-ex:eth2" =
      some [("br-data", ["eth0"]), ("br-ex", ["eth2"])] ∧
    containsKey (resolveBridges (fun l => l)
      [("br-data", ["eth0"]), ("br-ex", ["eth2"])]) "br-ex" = true ∧
    (Op.addBr "br-ex" ∉
      [Op.addBr "br-data", Op.addPort "br-data" "eth0", Op.linkUp "eth0",
       Op.setExt "ovn-bridge-mappings" "physnet1:br-data",
       Op.setExt "ovn-cms-options" "enable-chassis-as-gw"] ∧
     ∀ pn : String, Op.addPort "br-ex" pn ∉
      [Op.addBr "br-data", Op.addPort "br-data" "eth0", Op.linkUp "eth0",
       Op.setExt "ovn-bridge-mappings" "physnet1:br-data",
       Op.setExt "ovn-cms-options" "enable-chassis-as-gw"]) :=
  ⟨by decide, by decide,
   C4_unmapped_never_created (fun l => l) "br-data:eth0 br-ex:eth2"
     "physnet1:br-data" ⟨[], [], []⟩
     ⟨[⟨"br-data", [("charm-ovn-chassis", "managed")]⟩],
      [⟨"eth0", "br-data", [("charm-ovn-chassis", "br-data")]⟩],
      [("ovn-bridge-mappings", "physnet1:br-data"),
       ("ovn-cms-options", "enable-chassis-as-gw")]⟩
     [Op.addBr "br-data", Op.addPort "br-data" "eth0", Op.linkUp "eth0",
      Op.setExt "ovn-bridge-mappings" "physnet1:br-data",
      Op.setExt "ovn-cms-options" "enable-chassis-as-gw"]
     [("br-data", ["eth0"]), ("br-ex", ["eth2"])] "physnet1:br-data"
     [("br-data", ["physnet1"])] "br-ex"
     (by decide) (by decide) (by decide) (by decide)
     (by
       intro tok htok pr hsp
       rw [show tokens "physnet1:br-data" = ["physnet1:br-data"] by decide]
         at htok
       rw [List.mem_singleton.mp htok] at hsp
       rw [show splitFirstColon "physnet1:br-data" =
           some ("physnet1", "br-data") by decide] at hsp
       injection hsp with hsp
       rw [← hsp]
       decide)⟩

/-- C7: a declared bridge whose resolved interface list is empty is
dropped from the resolved map entirely: it is never created, no kept
network pair targets it, and a managed observed bridge of that name is
deleted by the stale-removal phase exactly as if it had not been declared. -/
theorem C7_empty_resolution_bridge_dropped
    (resolve : List String → List String) (ifbm obm : String)
    (s0 s1 : OVSState) (t : List Op)
    (ifb0 : List (String × List String)) (mstr : String)
    (ovnb : List (String × List String)) (br : String) (refs : List String)
    (hp : parseIfbm ifbm = some ifb0)
    (hlk : lookupGrouped ifb0 br = some refs)
    (hempty : resolve refs = [])
    (hm : buildOvnMap (resolveBridges resolve ifb0) obm = some (mstr, ovnb))
    (hr : configure_bridges resolve ifbm obm s0 = some (s1, t)) :
    containsKey (resolveBridges resolve ifb0) br = false ∧
    Op.addBr br ∉ t ∧
    (∀ pr ∈ keptPairs (resolveBridges resolve ifb0) (sortedTokens obm),
       pr.2 ≠ br) ∧
    (∀ b ∈ s0.bridges, b.name = br → bridgeTag b = some "managed" →
       Op.delBr br ∈ t) := by
  have hck : containsKey (resolveBridges resolve ifb0) br = false :=
    resolveBridges_dropped resolve ifb0 br refs
      (parseIfbm_keysNodup ifbm ifb0 hp) hlk hempty
  refine ⟨hck, ?_, ?_, ?_⟩
  · intro hmem
    rcases run_ops_cases resolve ifbm obm s0 s1 t ifb0 mstr ovnb hp hm hr
      (Op.addBr br) hmem with h1 | h2 | h3
    · rcases removePhase_ops _ s0 _ h1 with
        ⟨x, _, _, _, he⟩ | ⟨x, _, _, ifs, _, q, _, _, _, he⟩
      · exact Op.noConfusion he
      · exact Op.noConfusion he
    · obtain ⟨e, he, hce, hsh⟩ := addFold_ops ovnb _ _ _ h2
      rcases hsh with he' | ⟨pn, _, he' | he'⟩
      · injection he' with hbe
        have : containsKey (resolveBridges resolve ifb0) br = true := by
          rw [hbe]
          exact containsKey_of_mem _ e he
        rw [this] at hck
        cases hck
      · exact Op.noConfusion he'
      · exact Op.noConfusion he'
    · rcases publishPhase_ops_shape mstr _ _ h3 with ⟨k, v, he⟩ | ⟨k, he⟩
      · exact Op.noConfusion he
      · exact Op.noConfusion he
  · intro pr hpr he
    have hc := (keptPairs_mem _ _ pr hpr).1
    rw [he] at hc
    rw [hc] at hck
    cases hck
  · intro b hb hbn htag
    have hmem := removePhase_delBr_mem (resolveBridges resolve ifb0) s0 b hb
      htag (by rw [hbn]; exact containsKey_false_lookup _ br hck)
    rw [hbn] at hmem
    rw [run_trace_shape resolve ifbm obm s0 s1 t ifb0 mstr ovnb hp hm hr]
    exact List.mem_append_left _ (List.mem_append_left _ hmem)

/-- Witness for C7: `br-ex` is declared with only the unresolvable
reference `nope`, a managed `br-ex` exists, and the pass deletes it and
never recreates it. -/
theorem C7_witness :
    parseIfbm "br-data:eth0 br-ex:nope" =
      some [("br-data", ["eth0"]), ("br-ex", ["nope"])] ∧
    lookupGrouped [("br-data", ["eth0"]), ("br-ex", ["nope"])] "br-ex" =
      some ["nope"] ∧
    (["nope"].filter (fun x => x != "nope")) = [] ∧
    (containsKey (resolveBridges (fun l => l.filter (fun x => x != "nope"))
        [("br-data", ["eth0"]), ("br-ex", ["nope"])]) "br-ex" = false ∧
     Op.addBr "br-ex" ∉
       [Op.delBr "br-ex", Op.addBr "br-data", Op.addPort "br-data" "eth0",
        Op.linkUp "eth0",
        Op.setExt "ovn-bridge-mappings" "physnet1:br-data",
        Op.setExt "ovn-cms-options" "enable-chassis-as-gw"] ∧
     (∀ pr ∈ keptPairs (resolveBridges
          (fun l => l.filter (fun x => x != "nope"))
          [("br-data", ["eth0"]), ("br-ex", ["nope"])])
        (sortedTokens "physnet1:br-data physnet2:br-ex"), pr.2 ≠ "br-ex") ∧
     (∀ b ∈ [(⟨"br-ex", [("charm-ovn-chassis", "managed")]⟩ : Bridge)],
        b.name = "br-ex" → bridgeTag b = some "managed" →
        Op.delBr "br-ex" ∈
          [Op.delBr "br-ex", Op.addBr "br-data",
           Op.addPort "br-data" "eth0", Op.linkUp "eth0",
           Op.setExt "ovn-bridge-mappings" "physnet1:br-data",
           Op.setExt "ovn-cms-options" "enable-chassis-as-gw"])) :=
  ⟨by decide, by decide, by decide,
   C7_empty_resolution_bridge_dropped
     (fun l => l.filter (fun x => x != "nope"))
     "br-data:eth0 br-ex:nope" "physnet1:br-data physnet2:br-ex"
     ⟨[⟨"br-ex", [("charm-ovn-chassis", "managed")]⟩], [], []⟩
     ⟨[⟨"br-data", [("charm-ovn-chassis", "managed")]⟩],
      [⟨"eth0", "br-data", [("charm-ovn-chassis", "br-data")]⟩],
      [("ovn-bridge-mappings", "physnet1:br-data"),
       ("ovn-cms-options", "enable-chassis-as-gw")]⟩
     [Op.delBr "br-ex", Op.addBr "br-data", Op.addPort "br-data" "eth0",
      Op.linkUp "eth0",
      Op.setExt "ovn-bridge-mappings" "physnet1:br-data",
      Op.setExt "ovn-cms-options" "enable-chassis-as-gw"]
     [("br-data", ["eth0"]), ("br-ex", ["nope"])] "physnet1:br-data"
     [("br-data", ["physnet1"])] "br-ex" ["nope"]
     (by decide) (by decide) (by decide) (by decide) (by decide)⟩

/-- C2 counterexample: an untagged port (`eth9`, empty external-ids)
attached to a stale managed bridge `br-old` is removed by the cascade of
`del_br` — the final state holds no ports and no delete was ever issued
for the port itself — refuting "entities without that tag are never
deleted or otherwise mutated by the removal phase". -/
theorem C2_counterexample :
    portTag ⟨"eth9", "br-old", []⟩ = none ∧
    configure_bridges (fun l => l) "" ""
      ⟨[⟨"br-old", [("charm-ovn-chassis", "managed")]⟩],
       [⟨"eth9", "br-old", []⟩], []⟩ =
      some (⟨[], [], []⟩,
        [Op.delBr "br-old", Op.removeExt "ovn-bridge-mappings",
         Op.removeExt "ovn-cms-options"]) ∧
    Op.delPort "br-old" "eth9" ∉
      [Op.delBr "br-old", Op.removeExt "ovn-bridge-mappings",
       Op.removeExt "ovn-cms-options"] := by
  decide

/-- C2 (amended): delete operations are issued only against tagged
entities — every issued del-bridge names an observed bridge tagged
`managed`, every issued del-port names a port tagged with the managed
bridge's name — and, in states with unique bridge and port names,
untagged bridges always survive and an untagged port survives unless its
parent bridge is a stale managed bridge (one absent from the resolved
interface map) whose deletion cascades over it. -/
theorem C2_tagged_only_deleted (resolve : List String → List String)
    (ifbm obm : String) (s0 s1 : OVSState) (t : List Op)
    (ifb0 : List (String × List String)) (mstr : String)
    (ovnb : List (String × List String))
    (hndb : (s0.bridges.map Bridge.name).Nodup)
    (hndp : (s0.ports.map Port.name).Nodup)
    (hp : parseIfbm ifbm = some ifb0)
    (hm : buildOvnMap (resolveBridges resolve ifb0) obm = some (mstr, ovnb))
    (hr : configure_bridges resolve ifbm obm s0 = some (s1, t)) :
    (∀ n, Op.delBr n ∈ t →
       ∃ x ∈ s0.bridges, bridgeTag x = some "managed" ∧ x.name = n) ∧
    (∀ br pn, Op.delPort br pn ∈ t →
       (∃ x ∈ s0.bridges, bridgeTag x = some "managed" ∧ x.name = br) ∧
       (∃ q ∈ s0.ports, portTag q = some br ∧ q.name = pn)) ∧
    (∀ b ∈ s0.bridges, bridgeTag b ≠ some "managed" → b ∈ s1.bridges) ∧
    (∀ p ∈ s0.ports, portTag p = none →
       p ∈ s1.ports ∨ ∃ x ∈ s0.bridges, bridgeTag x = some "managed" ∧
         x.name = p.bridge ∧
         lookupGrouped (resolveBridges resolve ifb0) x.name = none) := by
  have hs := run_final_state resolve ifbm obm s0 s1 t ifb0 mstr ovnb hp hm hr
  refine ⟨?_, ?_, ?_, ?_⟩
  · intro n hmem
    rcases run_ops_cases resolve ifbm obm s0 s1 t ifb0 mstr ovnb hp hm hr
      (Op.delBr n) hmem with h1 | h2 | h3
    · rcases removePhase_ops _ s0 _ h1 with
        ⟨x, hx, hxt, _, he⟩ | ⟨x, _, _, ifs, _, q, _, _, _, he⟩
      · injection he with hne
        exact ⟨x, hx, hxt, hne.symm⟩
      · exact Op.noConfusion he
    · obtain ⟨e, _, _, hsh⟩ := addFold_ops ovnb _ _ _ h2
      rcases hsh with he' | ⟨pn', _, he' | he'⟩ <;> exact Op.noConfusion he'
    · rcases publishPhase_ops_shape mstr _ _ h3 with ⟨k, v, he⟩ | ⟨k, he⟩ <;>
        exact Op.noConfusion he
  · intro br pn hmem
    rcases run_ops_cases resolve ifbm obm s0 s1 t ifb0 mstr ovnb hp hm hr
      (Op.delPort br pn) hmem with h1 | h2 | h3
    · rcases removePhase_ops _ s0 _ h1 with
        ⟨x, _, _, _, he⟩ | ⟨x, hx, hxt, ifs, hlk, q, hq, hqt, hqni, he⟩
      · exact Op.noConfusion he
      · injection he with h1' h2'
        refine ⟨⟨x, hx, hxt, h1'.symm⟩, ⟨q, hq, ?_, h2'.symm⟩⟩
        rw [h1']
        exact hqt
    · obtain ⟨e, _, _, hsh⟩ := addFold_ops ovnb _ _ _ h2
      rcases hsh with he' | ⟨pn', _, he' | he'⟩ <;> exact Op.noConfusion he'
    · rcases publishPhase_ops_shape mstr _ _ h3 with ⟨k, v, he⟩ | ⟨k, he⟩ <;>
        exact Op.noConfusion he
  · intro b hb hbt
    have h1 := removePhase_unmanaged_kept (resolveBridges resolve ifb0) s0
      b hb hbt hndb
    have h2 := (addFold_state ovnb (resolveBridges resolve ifb0) _ []).1 b h1
    rw [hs, publishPhase_bridges]
    exact h2
  · intro p hpp hpt
    rcases removePhase_untagged_port (resolveBridges resolve ifb0) s0 p hpp
      hpt hndp with hsur | ⟨x, hx, hxt, hxn, hxlk⟩
    · left
      have h2 := (addFold_state ovnb (resolveBridges resolve ifb0) _
        []).2.2.1 p hsur
      rw [hs, publishPhase_ports]
      exact h2
    · exact Or.inr ⟨x, hx, hxt, hxn, hxlk⟩

/-- Witness for C2 on the cascade scenario: the only delete issued is for
the tagged bridge, the untagged port is gone only through the cascade. -/
theorem C2_witness :
    ((([(⟨"br-old", [("charm-ovn-chassis", "managed")]⟩ : Bridge)]).map
       Bridge.name).Nodup) ∧
    ((([(⟨"eth9", "br-old", []⟩ : Port)]).map Port.name).Nodup) ∧
    ((∀ n, Op.delBr n ∈
        [Op.delBr "br-old", Op.removeExt "ovn-bridge-mappings",
         Op.removeExt "ovn-cms-options"] →
       ∃ x ∈ [(⟨"br-old", [("charm-ovn-chassis", "managed")]⟩ : Bridge)],
         bridgeTag x = some "managed" ∧ x.name = n) ∧
     (∀ br pn, Op.delPort br pn ∈
        [Op.delBr "br-old", Op.removeExt "ovn-bridge-mappings",
         Op.removeExt "ovn-cms-options"] →
       (∃ x ∈ [(⟨"br-old", [("charm-ovn-chassis", "managed")]⟩ : Bridge)],
          bridgeTag x = some "managed" ∧ x.name = br) ∧
       (∃ q ∈ [(⟨"eth9", "br-old", []⟩ : Port)],
          portTag q = some br ∧ q.name = pn)) ∧
     (∀ b ∈ [(⟨"br-old", [("charm-ovn-chassis", "managed")]⟩ : Bridge)],
        bridgeTag b ≠ some "managed" →
        b ∈ (⟨[], [], []⟩ : OVSState).bridges) ∧
     (∀ p ∈ [(⟨"eth9", "br-old", []⟩ : Port)], portTag p = none →
        p ∈ (⟨[], [], []⟩ : OVSState).ports ∨
        ∃ x ∈ [(⟨"br-old", [("charm-ovn-chassis", "managed")]⟩ : Bridge)],
          bridgeTag x = some "managed" ∧ x.name = p.bridge ∧
          lookupGrouped (resolveBridges (fun l => l)
            ([] : List (String × List String))) x.name = none)) :=
  ⟨by decide, by decide,
   C2_tagged_only_deleted (fun l => l) "" ""
     ⟨[⟨"br-old", [("charm-ovn-chassis", "managed")]⟩],
      [⟨"eth9", "br-old", []⟩], []⟩
     ⟨[], [], []⟩
     [Op.delBr "br-old", Op.removeExt "ovn-bridge-mappings",
      Op.removeExt "ovn-cms-options"]
     [] "" []
     (by decide) (by decide) (by decide) (by decide) (by decide)⟩

/-- C9: the managed tag is attached to a bridge only at creation.  Every
bridge of the final state is either an unmodified pre-existing row or a
freshly created row whose external-ids are exactly the managed tag; a
pre-existing bridge without the managed tag survives the pass with its
row unchanged (in particular it never acquires the tag), and therefore
also survives the stale-removal phase of any later pass. -/
theorem C9_adoption_never_tags (resolve : List String → List String)
    (ifbm obm : String) (s0 s1 : OVSState) (t : List Op)
    (hndb : (s0.bridges.map Bridge.name).Nodup)
    (hr : configure_bridges resolve ifbm obm s0 = some (s1, t)) :
    (∀ b ∈ s1.bridges, b ∈ s0.bridges ∨
       b.external_ids = [(tagKey, "managed")]) ∧
    (∀ b ∈ s0.bridges, bridgeTag b ≠ some "managed" → b ∈ s1.bridges) ∧
    (∀ (resolve2 : List String → List String) (ifbm2 obm2 : String)
       (s2 : OVSState) (t2 : List Op),
       configure_bridges resolve2 ifbm2 obm2 s1 = some (s2, t2) →
       ∀ b ∈ s0.bridges, bridgeTag b ≠ some "managed" → b ∈ s2.bridges) := by
  obtain ⟨ifb0, mstr, ovnb, hp, hm⟩ :=
    configure_bridges_inv resolve ifbm obm s0 (s1, t) hr
  have hs := run_final_state resolve ifbm obm s0 s1 t ifb0 mstr ovnb hp hm hr
  have hb1 : ∀ b ∈ s0.bridges, bridgeTag b ≠ some "managed" →
      b ∈ s1.bridges := by
    intro b hb hbt
    have h1 := removePhase_unmanaged_kept (resolveBridges resolve ifb0) s0
      b hb hbt hndb
    have h2 := (addFold_state ovnb (resolveBridges resolve ifb0) _ []).1 b h1
    rw [hs, publishPhase_bridges]
    exact h2
  have hnd1 : (s1.bridges.map Bridge.name).Nodup := by
    rw [hs]
    exact run_names_nodup _ ovnb mstr s0 hndb
  refine ⟨?_, hb1, ?_⟩
  · intro b hb
    rw [hs, publishPhase_bridges] at hb
    rcases (addFold_state ovnb (resolveBridges resolve ifb0) _ []).2.1 b hb
      with h' | ⟨hext, _, _⟩
    · exact Or.inl ((removePhase_subset (resolveBridges resolve ifb0) s0).1
        b h')
    · exact Or.inr hext
  · intro resolve2 ifbm2 obm2 s2 t2 hr2 b hb hbt
    obtain ⟨ifb0', mstr', ovnb', hp', hm'⟩ :=
      configure_bridges_inv resolve2 ifbm2 obm2 s1 (s2, t2) hr2
    have hs2 := run_final_state resolve2 ifbm2 obm2 s1 s2 t2 ifb0' mstr'
      ovnb' hp' hm' hr2
    have h1 := removePhase_unmanaged_kept (resolveBridges resolve2 ifb0') s1
      b (hb1 b hb hbt) hbt hnd1
    have h2 := (addFold_state ovnb' (resolveBridges resolve2 ifb0') _ []).1
      b h1
    rw [hs2, publishPhase_bridges]
    exact h2

/-- Witness for C9: a pre-existing unmanaged `br-data` is adopted — its
declared port is attached but the bridge row keeps its empty external-ids
and survives a further pass. -/
theorem C9_witness :
    ((([(⟨"br-data", []⟩ : Bridge)]).map Bridge.name).Nodup) ∧
    ((∀ b ∈ (⟨[⟨"br-data", []⟩],
        [⟨"eth0", "br-data", [("charm-ovn-chassis", "br-data")]⟩],
        [("ovn-bridge-mappings", "physnet1:br-data"),
         ("ovn-cms-options", "enable-chassis-as-gw")]⟩ : OVSState).bridges,
        b ∈ [(⟨"br-data", []⟩ : Bridge)] ∨
          b.external_ids = [(tagKey, "managed")]) ∧
     (∀ b ∈ [(⟨"br-data", []⟩ : Bridge)],
        bridgeTag b ≠ some "managed" →
        b ∈ (⟨[⟨"br-data", []⟩],
          [⟨"eth0", "br-data", [("charm-ovn-chassis", "br-data")]⟩],
          [("ovn-bridge-mappings", "physnet1:br-data"),
           ("ovn-cms-options", "enable-chassis-as-gw")]⟩ : OVSState).bridges) ∧
     (∀ (resolve2 : List String → List String) (ifbm2 obm2 : String)
        (s2 : OVSState) (t2 : List Op),
        configure_bridges resolve2 ifbm2 obm2
          ⟨[⟨"br-data", []⟩],
           [⟨"eth0", "br-data", [("charm-ovn-chassis", "br-data")]⟩],
           [("ovn-bridge-mappings", "physnet1:br-data"),
            ("ovn-cms-options", "enable-chassis-as-gw")]⟩ = some (s2, t2) →
        ∀ b ∈ [(⟨"br-data", []⟩ : Bridge)],
          bridgeTag b ≠ some "managed" → b ∈ s2.bridges)) :=
  ⟨by decide,
   C9_adoption_never_tags (fun l => l) "br-data:eth0" "physnet1:br-data"
     ⟨[⟨"br-data", []⟩], [], []⟩
     ⟨[⟨"br-data", []⟩],
      [⟨"eth0", "br-data", [("charm-ovn-chassis", "br-data")]⟩],
      [("ovn-bridge-mappings", "physnet1:br-data"),
       ("ovn-cms-options", "enable-chassis-as-gw")]⟩
     [Op.addPort "br-data" "eth0", Op.linkUp "eth0",
      Op.setExt "ovn-bridge-mappings" "physnet1:br-data",
      Op.setExt "ovn-cms-options" "enable-chassis-as-gw"]
     (by decide) (by decide)⟩

/-- C1 counterexample: on converged state the second run still issues the
two unconditional publish `set` calls (`opvs.set` is not guarded by an
existence check), so the second run does NOT perform zero mutating calls:
its mutating trace is the two `setExt` operations, not empty. -/
theorem C1_counterexample :
    ((configure_bridges (fun l => l) "br-data:eth0" "physnet1:br-data"
        ⟨[], [], []⟩).bind (fun r =>
      (configure_bridges (fun l => l) "br-data:eth0" "physnet1:br-data"
        r.1).map (fun r2 => r2.2.filter Op.isMutating)) =
      some [Op.setExt "ovn-bridge-mappings" "physnet1:br-data",
            Op.setExt "ovn-cms-options" "enable-chassis-as-gw"]) ∧
    some ([Op.setExt "ovn-bridge-mappings" "physnet1:br-data",
           Op.setExt "ovn-cms-options" "enable-chassis-as-gw"]) ≠
      some ([] : List Op) := by
  decide

/-- C1 (amended): for a well-formed observed starting state (ports tagged
with the bridge they are attached to, attached bridges present — both hold
in real OVS), running the reconciler a second time with unchanged inputs
yields an observed state identical to the state after the first run, and
the only calls issued on the second run are the unconditional publish
set/remove calls of the final step — no create or delete is re-issued. -/
theorem C1_second_run_state_identical (resolve : List String → List String)
    (ifbm obm : String) (s0 s1 s2 : OVSState) (t1 t2 : List Op)
    (hwf : WFState s0)
    (h1 : configure_bridges resolve ifbm obm s0 = some (s1, t1))
    (h2 : configure_bridges resolve ifbm obm s1 = some (s2, t2)) :
    s2 = s1 ∧ ∀ op ∈ t2, Op.isPublish op = true :=
  second_run_noop resolve ifbm obm s0 s1 s2 t1 t2 hwf h1 h2

/-- Witness for C1 (amended) on the concrete converged scenario. -/
theorem C1_witness :
    WFState ⟨[], [], []⟩ ∧
    ((⟨[⟨"br-data", [("charm-ovn-chassis", "managed")]⟩],
       [⟨"eth0", "br-data", [("charm-ovn-chassis", "br-data")]⟩],
       [("ovn-bridge-mappings", "physnet1:br-data"),
        ("ovn-cms-options", "enable-chassis-as-gw")]⟩ : OVSState) =
     ⟨[⟨"br-data", [("charm-ovn-chassis", "managed")]⟩],
      [⟨"eth0", "br-data", [("charm-ovn-chassis", "br-data")]⟩],
      [("ovn-bridge-mappings", "physnet1:br-data"),
       ("ovn-cms-options", "enable-chassis-as-gw")]⟩ ∧
     ∀ op ∈ [Op.setExt "ovn-bridge-mappings" "physnet1:br-data",
             Op.setExt "ovn-cms-options" "enable-chassis-as-gw"],
       Op.isPublish op = true) :=
  ⟨⟨fun p hp => absurd hp (List.not_mem_nil p),
    fun p hp => absurd hp (List.not_mem_nil p)⟩,
   C1_second_run_state_identical (fun l => l) "br-data:eth0"
     "physnet1:br-data" ⟨[], [], []⟩
     ⟨[⟨"br-data", [("charm-ovn-chassis", "managed")]⟩],
      [⟨"eth0", "br-data", [("charm-ovn-chassis", "br-data")]⟩],
      [("ovn-bridge-mappings", "physnet1:br-data"),
       ("ovn-cms-options", "enable-chassis-as-gw")]⟩
     ⟨[⟨"br-data", [("charm-ovn-chassis", "managed")]⟩],
      [⟨"eth0", "br-data", [("charm-ovn-chassis", "br-data")]⟩],
      [("ovn-bridge-mappings", "physnet1:br-data"),
       ("ovn-cms-options", "enable-chassis-as-gw")]⟩
     [Op.addBr "br-data", Op.addPort "br-data" "eth0", Op.linkUp "eth0",
      Op.setExt "ovn-bridge-mappings" "physnet1:br-data",
      Op.setExt "ovn-cms-options" "enable-chassis-as-gw"]
     [Op.setExt "ovn-bridge-mappings" "physnet1:br-data",
      Op.setExt "ovn-cms-options" "enable-chassis-as-gw"]
     ⟨fun p hp => absurd hp (List.not_mem_nil p),
      fun p hp => absurd hp (List.not_mem_nil p)⟩
     (by decide) (by decide)⟩

end OvnCharm
